import Mathlib

/-
Verification development for the `nmt-serving` preprocessing engine
(`nmtwizard/preprocess/prepoperator.py` and `nmtwizard/preprocess/preprocess.py`).

The Python code is shallowly embedded: configuration dictionaries become
association lists over a JSON-like `Value` type, mutable state becomes explicit
state passing, exceptions become `Except String`, and the multiprocessing batch
orchestrator becomes a deterministic step function parameterized by an
adversarial completion schedule.
-/

set_option maxHeartbeats 1000000

namespace NmtServing

/-- JSON-like configuration values, modelling the Python scalars, lists and
dicts handled by the preprocessing configuration code. -/
inductive Value where
  | vNone : Value
  | vStr : String → Value
  | vNat : Nat → Value
  | vBool : Bool → Value
  | vList : List Value → Value
  | vDict : List (String × Value) → Value

/-- A Python dict with string keys, as an association list (first occurrence
of a key is its binding; well-formed dicts bind each key once). -/
abbrev Dict := List (String × Value)

/-- `d.get(k)` on a Python dict. -/
def lookupV (k : String) : Dict → Option Value
  | [] => none
  | (k', v) :: rest => if k' = k then some v else lookupV k rest

/-- `k in d` on a Python dict. -/
def containsKey (k : String) (d : Dict) : Bool :=
  (lookupV k d).isSome

/-- `d.pop(k, None)`, keeping only the remaining entries. -/
def popKey (k : String) : Dict → Dict
  | [] => []
  | (k', v) :: rest => if k' = k then popKey k rest else (k', v) :: popKey k rest

/-- Python truthiness of a configuration value. -/
def truthy : Value → Bool
  | .vNone => false
  | .vStr s => !(s == "")
  | .vNat n => !(n == 0)
  | .vBool b => b
  | .vList xs => !xs.isEmpty
  | .vDict d => !d.isEmpty

/-- `d[k] = v` on a Python dict: overwrite the binding if present, else append. -/
def setKey (k : String) (v : Value) : Dict → Dict
  | [] => [(k, v)]
  | (k', v') :: rest => if k' = k then (k, v) :: rest else (k', v') :: setKey k v rest

mutual

/-- Modelled from the spec: `merge_config` is imported from `nmtwizard/config.py`,
which is not among the given sources.  Per the spec, the override is deep-merged
over the base parameters: the override wins on scalar conflicts and the merge
recurses into nested mappings. -/
def mergeValue : Value → Value → Value
  | Value.vDict a, Value.vDict b => Value.vDict (mergeDict a b)
  | _, b => b

/-- Modelled from the spec: dict-level part of `merge_config` (see `mergeValue`).
Every key of the override is written into the base, recursing when both sides
bind the key to a mapping. -/
def mergeDict (a : Dict) : Dict → Dict
  | [] => a
  | (k, bv) :: rest =>
      mergeDict
        (setKey k
          (match lookupV k a with
           | some av => mergeValue av bv
           | none => bv) a)
        rest

end

/-- Modelled from the spec: top-level `merge_config` call as used by
`get_operator_params`, merging an override value over a base parameter dict.
The sources only ever merge a mapping over the base parameters. -/
def merge_config (a : Dict) (b : Value) : Dict :=
  match b with
  | Value.vDict db => mergeDict a db
  | _ => a

/-- `get_operator_type` (prepoperator.py:54): read the raw `op` field, failing
when it is absent. -/
def get_operator_type (config : Dict) : Except String Value :=
  match lookupV "op" config with
  | none => Except.error "Missing op field in operator configuration"
  | some v => Except.ok v

/-- `get_operator_params` (prepoperator.py:67): strip the routing fields `op`
and `overrides`; when the active label set and the override map are both truthy,
count the active labels that are override keys: more than one is an ambiguity
error, exactly one deep-merges that override over the base, zero leaves the base
unchanged.  The override map is taken to be a mapping, as in every configuration
the sources handle. -/
def get_operator_params (config : Dict) (operator_type : String)
    (override_label : List String) : Except String Dict :=
  let config1 := popKey "op" config
  let override_config := lookupV "overrides" config1
  let base := popKey "overrides" config1
  match override_config with
  | some (Value.vDict ocd) =>
      if override_label.isEmpty || !(truthy (Value.vDict ocd)) then Except.ok base
      else
        let override := override_label.filter (fun l => containsKey l ocd)
        if override.length > 1 then
          Except.error ("One corpus requires different overrides for the same operator ("
            ++ operator_type ++ ").")
        else
          match override with
          | [l] =>
              match lookupV l ocd with
              | some ov => Except.ok (merge_config base ov)
              | none => Except.ok base
          | _ => Except.ok base
  | _ => Except.ok base

/-- Batch metadata (the second component of a `tu_batch`), restricted to the
fields the embedded code reads or writes. -/
structure BatchMeta where
  filter_summary : List (String × Nat) := []
  ops_profile : Option (List (String × Nat)) := none
  labelv : Option Value := none
  base_name : Option String := none

/-- `filter_summary[name] += n` on a `defaultdict(int)`. -/
def bumpCount (name : String) (n : Nat) : List (String × Nat) → List (String × Nat)
  | [] => [(name, n)]
  | (k, v) :: rest => if k = name then (k, v + n) :: rest else (k, v) :: bumpCount name n rest

/-- Value of key `name` in a `defaultdict(int)` association list. -/
def countOf (name : String) : List (String × Nat) → Nat
  | [] => 0
  | (k, v) :: rest => if k = name then v else countOf name rest

/-- `Filter._preprocess_tu` (prepoperator.py:437): return `[]` on the first
matching criterion, else keep the unit. -/
def filter_preprocess_tu {TU : Type} (criteria : List (TU → Bool)) (tu : TU) : List TU :=
  match criteria with
  | [] => [tu]
  | c :: rest => if c tu then [] else filter_preprocess_tu rest tu

/-- `TUOperator._preprocess` (prepoperator.py:315): apply the per-unit action to
every unit and concatenate the produced lists; metadata is untouched. -/
def tu_operator_preprocess {TU : Type} (f : TU → List TU) (batch : List TU × BatchMeta) :
    List TU × BatchMeta :=
  ((batch.1.map f).flatten, batch.2)

/-- `Filter.__call__` (prepoperator.py:428): run the per-unit filtering (the
`TRAINING` path of `Operator.__call__`, the only one a `Filter` reaches given
`Filter.is_applied_for`), then record `before - after` dropped units under the
operator's name in the batch `filter_summary`. -/
def filter_call {TU : Type} (name : String) (criteria : List (TU → Bool))
    (batch : List TU × BatchMeta) : List TU × BatchMeta :=
  let before := batch.1.length
  let batch1 := tu_operator_preprocess (filter_preprocess_tu criteria) batch
  let after := batch1.1.length
  (batch1.1,
   { batch1.2 with
     filter_summary := bumpCount name (before - after) batch1.2.filter_summary })

/-- `ProcessType` (prepoperator.py:118). -/
inductive ProcessType where
  | TRAINING : ProcessType
  | INFERENCE : ProcessType
  | POSTPROCESS : ProcessType
deriving DecidableEq

/-- `Filter.is_applied_for` (prepoperator.py:423). -/
def filter_is_applied_for (process_type : ProcessType) : Bool :=
  process_type = ProcessType.TRAINING

/-- The pipeline build state (`Pipeline.start_state`, prepoperator.py:150),
with the well-known optional fields the source initializes. -/
structure BuildState where
  src_tokenizer : Option Value := none
  tgt_tokenizer : Option Value := none
  postprocess_only : Bool := false
  src_vocabulary : Option Value := none
  tgt_vocabulary : Option Value := none

/-- `config.get(k, {})` where the configuration stores a mapping. -/
def getDictField (d : Dict) (k : String) : Dict :=
  match lookupV k d with
  | some (Value.vDict sub) => sub
  | _ => []

/-- The initial `start_state` computed in `Pipeline.__init__` (prepoperator.py:150). -/
def initStartState (config : Dict) : BuildState :=
  { src_tokenizer := none
    tgt_tokenizer := none
    postprocess_only := false
    src_vocabulary := lookupV "path" (getDictField (getDictField config "vocabulary") "source")
    tgt_vocabulary := lookupV "path" (getDictField (getDictField config "vocabulary") "target") }

/-- The per-operator shared resources handed to a constructor: builder name to
built-instance identifier (instances are identified by allocation number, which
stands for Python object identity). -/
abbrev SharedRes := List (String × Nat)

/-- Association-list lookup with string keys (`d.get(k)`). -/
def assocLookup {α : Type} (k : String) : List (String × α) → Option α
  | [] => none
  | (k', v) :: rest => if k' = k then some v else assocLookup k rest

/-- Association-list lookup with natural-number keys (`d.get(i)`). -/
def assocLookupN {α : Type} (i : Nat) : List (Nat × α) → Option α
  | [] => none
  | (j, v) :: rest => if j = i then some v else assocLookupN i rest

/-- An operator implementation: the class-level interface of `Operator`
(prepoperator.py:248).  `init` is the effect of the constructor on the threaded
build state; `run` is the behavior of the built instance (which, in Python, is a
closure over the constructor arguments). -/
structure OperatorClass (TU : Type) where
  is_applied_for : ProcessType → Bool
  accept_options : Bool
  get_shared_classes : List String
  get_shared_builders : Dict → ProcessType → List (String × String × String)
  init : Dict → ProcessType → BuildState → Option SharedRes → BuildState
  run : Dict → ProcessType → BuildState → Option SharedRes →
        (List TU × BatchMeta) → Option Value → List TU × BatchMeta

/-- A bound operator instance as produced by `build_operator`
(prepoperator.py:91): the common attributes set there plus the constructor
arguments the instance closed over. -/
structure BuiltOperator (TU : Type) where
  name : String
  opType : String
  cls : OperatorClass TU
  params : Dict
  process_type : ProcessType
  bstate : BuildState
  shared : Option SharedRes
  index : Nat

/-- Decimal digit characters of a positive number, most significant first,
with an explicit fuel argument so that the recursion is structural (the fuel is
always at least the rendered number). -/
def decDigitsAux : Nat → Nat → List Char
  | _, 0 => []
  | 0, _ + 1 => []
  | fuel + 1, n + 1 =>
      decDigitsAux fuel ((n + 1) / 10) ++ [Nat.digitChar ((n + 1) % 10)]

/-- Decimal digit characters of a number, most significant first (empty for
zero). -/
def decDigits (n : Nat) : List Char :=
  decDigitsAux n n

/-- Decimal rendering of a natural number, modelling the `%d` format. -/
def decRender (n : Nat) : String :=
  match n with
  | 0 => "0"
  | _ + 1 => String.mk (decDigits n)

/-- The numeric value of a decimal digit character. -/
def charDigit (c : Char) : Nat :=
  c.toNat - 48

/-- Evaluate a decimal digit string, most significant digit first. -/
def parseDec (l : List Char) : Nat :=
  l.foldl (fun acc c => acc * 10 + charDigit c) 0

/-- The characters after the last underscore of a character list. -/
def afterLastSep (l : List Char) : List Char :=
  (l.reverse.takeWhile (fun c => !(c == '_'))).reverse

/-- Recover the configuration index encoded in a default operator name
`{type}_{index}`. -/
def decodeIndex (s : String) : Nat :=
  parseDec (afterLastSep s.data)

/-- `_add_lang_info` (prepoperator.py:84): propagate `config[side]` into the
side sub-mapping when present, else into a `{side}_lang` key; `config[side]`
raises when the global configuration lacks the language. -/
def add_lang_info (operator_params : Dict) (config : Dict) (side : String) :
    Except String Dict :=
  match lookupV side config with
  | none => Except.error ("KeyError: " ++ side)
  | some langv =>
      match lookupV side operator_params with
      | some (Value.vDict sp) =>
          Except.ok (setKey side (Value.vDict (setKey "lang" langv sp)) operator_params)
      | some _ => Except.error ("side parameters are not a mapping: " ++ side)
      | none => Except.ok (setKey (side ++ "_lang") langv operator_params)

/-- `build_operator` (prepoperator.py:91): add language info, pop the name
(defaulting to `{type}_{index}`; explicit names are the string-valued ones the
sources use), run the constructor for its build-state effect, and return the
bound instance. -/
def build_operator {TU : Type} (operator_type : String) (operator_cls : OperatorClass TU)
    (operator_params : Dict) (global_config : Dict) (process_type : ProcessType)
    (build_state : BuildState) (index : Nat) (shared_state : Option SharedRes) :
    Except String (BuiltOperator TU × BuildState) := do
  let params1 ← add_lang_info operator_params global_config "source"
  let params2 ← add_lang_info params1 global_config "target"
  let name :=
    match lookupV "name" params2 with
    | some (Value.vStr s) => s
    | _ => operator_type ++ "_" ++ decRender index
  let params3 := popKey "name" params2
  let build_state' := operator_cls.init params3 process_type build_state shared_state
  Except.ok
    ({ name := name, opType := operator_type, cls := operator_cls, params := params3,
       process_type := process_type, bstate := build_state, shared := shared_state,
       index := index }, build_state')

/-- `i > preprocess_exit_step` guard of `operator_info_generator`. -/
def exitGt : Option Nat → Nat → Bool
  | none, _ => false
  | some e, i => e < i

/-- Truthiness of `d.get(k, False)`. -/
def truthyOpt : Option Value → Bool
  | none => false
  | some v => truthy v

/-- `get_operator_class` (prepoperator.py:61) over an explicit registry. -/
def get_operator_class {TU : Type} (registry : List (String × OperatorClass TU)) :
    Value → Except String (String × OperatorClass TU)
  | Value.vStr s =>
      (match assocLookup s registry with
       | some cls => Except.ok (s, cls)
       | none => Except.error ("Unknown operator " ++ s))
  | _ => Except.error "Unknown operator"

/-- `operator_info_generator` (prepoperator.py:35): walk the enumerated entries,
stopping after the exit step, skipping inapplicable and (optionally) disabled
operators, resolving each remaining entry's class and parameters. -/
def operator_info_gen {TU : Type} (registry : List (String × OperatorClass TU))
    (process_type : ProcessType) (override_label : List String)
    (preprocess_exit_step : Option Nat) (ignore_disabled : Bool) :
    List Dict → Nat → Except String (List (OperatorClass TU × Dict × String × Nat))
  | [], _ => Except.ok []
  | c :: rest, i =>
      if exitGt preprocess_exit_step i then Except.ok []
      else do
        let opv ← get_operator_type c
        let (opTypeStr, cls) ← get_operator_class registry opv
        if !(cls.is_applied_for process_type) then
          operator_info_gen registry process_type override_label preprocess_exit_step
            ignore_disabled rest (i + 1)
        else do
          let params ← get_operator_params c opTypeStr override_label
          if ignore_disabled && truthyOpt (lookupV "disabled" params) then
            operator_info_gen registry process_type override_label preprocess_exit_step
              ignore_disabled rest (i + 1)
          else do
            let tl ← operator_info_gen registry process_type override_label
              preprocess_exit_step ignore_disabled rest (i + 1)
            Except.ok ((cls, params, opTypeStr, i) :: tl)

/-- `shared_state.get(i) if shared_state else None` (prepoperator.py:180). -/
def sharedFor (shared_state : Option (List (Nat × SharedRes))) (i : Nat) :
    Option SharedRes :=
  match shared_state with
  | some ss => assocLookupN i ss
  | none => none

/-- The construction loop of `Pipeline._add_op_list` (prepoperator.py:166):
build each resolved operator in order, appending it to the operator list and
threading the build state. -/
def add_ops {TU : Type} (global_config : Dict) (process_type : ProcessType)
    (shared_state : Option (List (Nat × SharedRes))) :
    List (OperatorClass TU × Dict × String × Nat) →
    List (BuiltOperator TU) → BuildState →
    Except String (List (BuiltOperator TU) × BuildState)
  | [], ops, bs => Except.ok (ops, bs)
  | (cls, params, opType, i) :: rest, ops, bs => do
      let (op, bs') ← build_operator opType cls params global_config process_type bs i
        (sharedFor shared_state i)
      add_ops global_config process_type shared_state rest (ops ++ [op]) bs'

/-- `Pipeline._add_op_list` (prepoperator.py:166). -/
def add_op_list {TU : Type} (registry : List (String × OperatorClass TU))
    (global_config : Dict) (process_type : ProcessType) (override_label : List String)
    (op_list_config : List Dict) (exit_step : Option Nat)
    (shared_state : Option (List (Nat × SharedRes)))
    (ops : List (BuiltOperator TU)) (bs : BuildState) :
    Except String (List (BuiltOperator TU) × BuildState) := do
  let infos ← operator_info_gen registry process_type override_label exit_step true
    op_list_config 0
  add_ops global_config process_type shared_state infos ops bs

/-- A built pipeline (`Pipeline`, prepoperator.py:132). -/
structure Pipeline (TU : Type) where
  ops : List (BuiltOperator TU)
  process_type : ProcessType
  override_label : List String
  start_state : BuildState
  build_state : BuildState

/-- Convert a configured operator-list value to its entry dicts. -/
def entryDicts : List Value → Except String (List Dict)
  | [] => Except.ok []
  | Value.vDict e :: rest => do
      let tl ← entryDicts rest
      Except.ok (e :: tl)
  | _ :: _ => Except.error "operator configuration entry is not a mapping"

/-- `config.get(key)` for an operator list followed by the truthiness guard:
a falsy value yields no entries; a truthy non-list cannot be enumerated. -/
def getOpListD (d : Dict) (k : String) : Except String (List Dict) :=
  match lookupV k d with
  | some (Value.vList entries) => entryDicts entries
  | some v => if truthy v then Except.error "operator list is not a list" else Except.ok []
  | none => Except.ok []

/-- `Pipeline.__init__` plus `Pipeline._build_pipeline` (prepoperator.py:135 and
prepoperator.py:186): build the main block; for `POSTPROCESS`, reverse it, swap
the start and build states, set the build state's `postprocess_only` flag, and
append the separately configured postprocess-only block (built with no exit
step and no shared state). -/
def buildPipeline {TU : Type} (registry : List (String × OperatorClass TU)) (config : Dict)
    (process_type : ProcessType) (preprocess_exit_step : Option Nat)
    (override_label : List String) (shared_state : Option (List (Nat × SharedRes))) :
    Except String (Pipeline TU) := do
  let start_state := initStartState config
  let preprocess_config ← getOpListD config "preprocess"
  let (ops, build_state) ←
    add_op_list registry config process_type override_label preprocess_config
      preprocess_exit_step shared_state [] start_state
  if process_type = ProcessType.POSTPROCESS then do
    let revOps := ops.reverse
    let start_state' := build_state
    let build_state' := { start_state with postprocess_only := true }
    let postprocess_config ← getOpListD config "postprocess"
    let (ops', build_state'') ←
      add_op_list registry config process_type override_label postprocess_config
        none none revOps build_state'
    Except.ok { ops := ops', process_type := process_type, override_label := override_label,
                start_state := start_state', build_state := build_state'' }
  else
    Except.ok { ops := ops, process_type := process_type, override_label := override_label,
                start_state := start_state, build_state := build_state }

/-- `op(tu_batch, **kwargs)` for a bound operator. -/
def applyBuiltOperator {TU : Type} (op : BuiltOperator TU) (batch : List TU × BatchMeta)
    (options : Option Value) : List TU × BatchMeta :=
  op.cls.run op.params op.process_type op.bstate op.shared batch options

/-- Whether a value is Python `None`. -/
def isNoneV : Value → Bool
  | Value.vNone => true
  | _ => false

/-- `ops_profile[op.name] += end - start` under `TRAINING`; the wall-clock
difference itself is not representable, so the recorded duration is zero and
only the profile's structure is modelled. -/
def profBump (name : String) : Option (List (String × Nat)) → Option (List (String × Nat))
  | none => none
  | some p => some (bumpCount name 0 p)

/-- The operator loop of `Pipeline.__call__` (prepoperator.py:220): per
operator, look up its runtime options (`None`-valued and absent entries count as
absent), reject a payload when the operator does not accept options, apply the
operator, and accumulate the profile. -/
def pipelineRunOps {TU : Type} (options : List (String × Value)) :
    List (BuiltOperator TU) → (List TU × BatchMeta) → Option (List (String × Nat)) →
    Except String ((List TU × BatchMeta) × Option (List (String × Nat)))
  | [], batch, prof => Except.ok (batch, prof)
  | op :: rest, batch, prof =>
      match (if options.isEmpty then none else lookupV op.name options) with
      | some v =>
          if isNoneV v then
            pipelineRunOps options rest (applyBuiltOperator op batch none) (profBump op.name prof)
          else if op.cls.accept_options then
            pipelineRunOps options rest (applyBuiltOperator op batch (some v))
              (profBump op.name prof)
          else
            Except.error ("Operator " ++ op.name ++ " does not accept runtime options")
      | none =>
          pipelineRunOps options rest (applyBuiltOperator op batch none) (profBump op.name prof)

/-- `Pipeline.__call__` (prepoperator.py:214): run the operators, store the
profile in the batch metadata under `TRAINING`, and finalize every remaining
unit for the process type. -/
def pipeline_call {TU : Type} (p : Pipeline TU) (finalize : ProcessType → TU → TU)
    (batch : List TU × BatchMeta) (options : List (String × Value)) :
    Except String (List TU × BatchMeta) := do
  let prof0 := if p.process_type = ProcessType.TRAINING then some [] else none
  let (batch1, prof) ← pipelineRunOps options p.ops batch prof0
  let meta :=
    match prof with
    | some pr => { batch1.2 with ops_profile := some pr }
    | none => batch1.2
  Except.ok (batch1.1.map (finalize p.process_type), meta)

/-- Reference runner used to state that payloads reach their operators: the
loop of `Pipeline.__call__` with the option-support check removed. -/
def pipelineRunOpsNoCheck {TU : Type} (options : List (String × Value)) :
    List (BuiltOperator TU) → (List TU × BatchMeta) → Option (List (String × Nat)) →
    (List TU × BatchMeta) × Option (List (String × Nat))
  | [], batch, prof => (batch, prof)
  | op :: rest, batch, prof =>
      pipelineRunOpsNoCheck options rest
        (applyBuiltOperator op batch
          (match (if options.isEmpty then none else lookupV op.name options) with
           | some v => if isNoneV v then none else some v
           | none => none))
        (profBump op.name prof)

/-- `_get_corpus_name` (preprocess.py:48). -/
def get_corpus_name {TU : Type} (tu_batch : List TU × BatchMeta) : Option String :=
  tu_batch.2.base_name

/-- The message of the `RuntimeError` raised in `_process_batch_on_worker`
(preprocess.py:119): the source/corpus clause appears only when the corpus name
is truthy. -/
def workerErrorMessage (corpusName : Option String) (workerName : String) : String :=
  "An exception occured " ++
    (match corpusName with
     | some n => if n == "" then "" else "when processing file \x27" ++ n ++ "\x27 "
     | none => "") ++
    "in worker process " ++ workerName ++ " (see above)"

/-- `_process_batch_on_worker` (preprocess.py:93): run the batch through
`_process_batch` (abstracted as `doProcess`); any exception is caught and
re-raised as a new error naming the worker and, when known, the batch's corpus
name. -/
def process_batch_on_worker {TU O : Type}
    (doProcess : (List TU × BatchMeta) → Except String O) (workerName : String)
    (tu_batch : List TU × BatchMeta) : Except String O :=
  match doProcess tu_batch with
  | Except.ok o => Except.ok o
  | Except.error _ =>
      Except.error (workerErrorMessage (get_corpus_name tu_batch) workerName)

/-- The drain loop `while len(results) > 0 and results[0].ready():
consumer(results.popleft().get())` (preprocess.py:205).  `T i ≤ c` models
`results[0].ready()` for submission `i` at clock `c`; retrieving an errored
result re-raises, aborting with the outputs consumed so far. -/
def drainReady {O : Type} (T : Nat → Nat) (c : Nat) :
    List (Nat × Except String O) → List O × Option String × List (Nat × Except String O)
  | [] => ([], none, [])
  | (i, r) :: rest =>
      if T i ≤ c then
        match r with
        | Except.ok o =>
            let (outs, err, q) := drainReady T c rest
            (o :: outs, err, q)
        | Except.error e => ([], some e, rest)
      else ([], none, (i, r) :: rest)

/-- The final loop `while len(results) > 0: consumer(results.popleft().get())`
(preprocess.py:209): `get` blocks until the result is available, so readiness
is not consulted. -/
def drainAll {O : Type} : List (Nat × Except String O) → List O × Option String
  | [] => ([], none)
  | (_, Except.ok o) :: rest =>
      let (outs, err) := drainAll rest
      (o :: outs, err)
  | (_, Except.error _e) :: _ => ([], some _e)

/-- `results[0].wait()` (preprocess.py:202): advance the clock to the head
submission's completion time. -/
def waitHead {O : Type} (T : Nat → Nat) (c : Nat) : List (Nat × Except String O) → Nat
  | [] => c
  | (i, _) :: _ => max c (T i)

/-- The parallel branch of `Processor.process` (preprocess.py:177): submit each
loader batch to the pool (appending the handle to the FIFO deque), wait on the
oldest outstanding result when the deque holds `2 * num_workers` entries, drain
ready results from the front, and after the loader is exhausted drain the rest.
The worker pool is modelled adversarially: submission `i` completes at time
`T i`, and `adv` advances the clock arbitrarily at each iteration.  The first
component records the deque length right after each submission (its peak);
the second is the consumer-observed output sequence; the third is the error
that aborted the run, if any. -/
def procLoop {B O : Type} (N : Nat) (f : B → Except String O) (T adv : Nat → Nat) :
    List B → Nat → Nat → List (Nat × Except String O) →
    List Nat × List O × Option String
  | [], _, _, q =>
      let (outs, err) := drainAll q
      ([], outs, err)
  | b :: bs, c, idx, q =>
      let q1 := q ++ [(idx, f b)]
      let c1 := c + adv idx
      let c2 := if q1.length == 2 * N then waitHead T c1 q1 else c1
      let (outs1, err, q2) := drainReady T c2 q1
      match err with
      | some e => ([q1.length], outs1, some e)
      | none =>
          let (tr, outs2, err2) := procLoop N f T adv bs c2 (idx + 1) q2
          (q1.length :: tr, outs1 ++ outs2, err2)

/-- The successfully computed outputs held in a result queue, in queue order. -/
def okVals {O : Type} (q : List (Nat × Except String O)) : List O :=
  q.filterMap (fun e => e.2.toOption)

/-- `Processor.process` in parallel mode, started on an empty deque. -/
def processorProcessParallel {B O : Type} (N : Nat) (f : B → Except String O)
    (T adv : Nat → Nat) (batches : List B) : List Nat × List O × Option String :=
  procLoop N f T adv batches 0 0 []

/-- The corpus label of `SharedState.get`: absent, a set of label strings, or
(defensively) a mapping, as produced by `_get_corpus_label` (preprocess.py:38). -/
inductive Label where
  | lnone : Label
  | lset : List String → Label
  | ldict : Dict → Label

/-- `repr(override_label)`, used as the outer cache key; an injective-enough
rendering suffices since only equal labels must agree. -/
def labelRepr : Label → String
  | Label.lnone => "None"
  | Label.lset ls => "set:" ++ String.intercalate "," ls
  | Label.ldict _ => "dict"

/-- The label as passed to `operator_info_generator`. -/
def labelList : Label → List String
  | Label.lnone => []
  | Label.lset ls => ls
  | Label.ldict _ => []

/-- Generic association-list overwrite-or-append with string keys. -/
def setAssoc {α : Type} (k : String) (v : α) : List (String × α) → List (String × α)
  | [] => [(k, v)]
  | (k', v') :: rest => if k' = k then (k, v) :: rest else (k', v') :: setAssoc k v rest

/-- Generic association-list overwrite-or-append with natural-number keys. -/
def setAssocN {α : Type} (i : Nat) (v : α) : List (Nat × α) → List (Nat × α)
  | [] => [(i, v)]
  | (j, v') :: rest => if j = i then (i, v) :: rest else (j, v') :: setAssocN i v rest

/-- The state of a `SharedState` object (preprocess.py:485).  Built instances
are identified by allocation number (`nextId` is the allocation counter), which
stands for Python object identity. -/
structure SharedStateData where
  all_state : List (Nat × List (String × Nat)) := []
  cached_state : List (String × List (Nat × SharedRes)) := []
  manager : Bool := false
  nextId : Nat := 0

/-- The inner cache key `"%s_%s" % (cls.__name__, str(args))`
(preprocess.py:542). -/
def shared_builders_key (clsName argsRepr : String) : String :=
  clsName ++ "_" ++ argsRepr

/-- The builder loop over one operator's shared builders (preprocess.py:541):
build each missing key, then record `name → existing_state[key]` in the
per-index result. -/
def buildEntries (nextId : Nat) (existing : List (String × Nat)) (acc : SharedRes) :
    List (String × String × String) → List (String × Nat) × SharedRes × Nat
  | [] => (existing, acc, nextId)
  | (name, clsName, argsRepr) :: rest =>
      let key := shared_builders_key clsName argsRepr
      match assocLookup key existing with
      | some inst => buildEntries nextId existing (setAssoc name inst acc) rest
      | none =>
          buildEntries (nextId + 1) (existing ++ [(key, nextId)])
            (setAssoc name nextId acc) rest

/-- `all_builders` collection (preprocess.py:527): indices whose operator
declares a non-empty shared-builder mapping. -/
def collectBuilders {TU : Type} (process_type : ProcessType) :
    List (OperatorClass TU × Dict × String × Nat) →
    List (Nat × List (String × String × String))
  | [] => []
  | (cls, params, _, i) :: rest =>
      let bs := cls.get_shared_builders params process_type
      if bs.isEmpty then collectBuilders process_type rest
      else (i, bs) :: collectBuilders process_type rest

/-- The instance-creation loop (preprocess.py:538): for each index with
builders, reuse or extend `all_state[i]` and record the resulting
`name → instance` mapping. -/
def buildAllShared (all_state : List (Nat × List (String × Nat))) (nextId : Nat) :
    List (Nat × List (String × String × String)) →
    List (Nat × List (String × Nat)) × List (Nat × SharedRes) × Nat
  | [] => (all_state, [], nextId)
  | (i, builders) :: rest =>
      let existing := (assocLookupN i all_state).getD []
      let (existing', m, nid) := buildEntries nextId existing [] builders
      let (as2, ms, nid') := buildAllShared (setAssocN i existing' all_state) nid rest
      (as2, (i, m) :: ms, nid')

/-- The manager-initialization step of `SharedState.get` (preprocess.py:510):
with workers and no manager yet, enumerate every operator (disabled included)
to register its shared classes, then mark the manager started. -/
def managerStep {TU : Type} (registry : List (String × OperatorClass TU))
    (process_type : ProcessType) (override_label : Label)
    (preprocess_exit_step : Option Nat) (preprocess_config : List Dict)
    (num_workers : Nat) (s : SharedStateData) : Except String SharedStateData :=
  if num_workers > 0 && !s.manager then do
    let _ ← operator_info_gen registry process_type (labelList override_label)
      preprocess_exit_step false preprocess_config 0
    Except.ok { s with manager := true }
  else Except.ok s

/-- `SharedState.get` (preprocess.py:498): a mapping label short-circuits to
`None`; otherwise consult the outer cache; without a preprocess configuration
return an empty mapping (uncached); otherwise start the manager on first use
with workers (`managerStep`), enumerate the shared builders for the label,
build every cache miss, cache and return the per-index resource mapping. -/
def sharedStateGet {TU : Type} (registry : List (String × OperatorClass TU)) (config : Dict)
    (process_type : ProcessType) (preprocess_exit_step : Option Nat) (num_workers : Nat)
    (s : SharedStateData) (override_label : Label) :
    Except String (Option (List (Nat × SharedRes)) × SharedStateData) :=
  match override_label with
  | Label.ldict _ => Except.ok (none, s)
  | _ =>
    match assocLookup (labelRepr override_label) s.cached_state with
    | some cached => Except.ok (some cached, s)
    | none => do
        let preprocess_config ← getOpListD config "preprocess"
        if preprocess_config.isEmpty then
          Except.ok (some [], s)
        else do
          let s1 ← managerStep registry process_type override_label preprocess_exit_step
            preprocess_config num_workers s
          let infos ← operator_info_gen registry process_type (labelList override_label)
            preprocess_exit_step true preprocess_config 0
          let res :=
            buildAllShared s1.all_state s1.nextId (collectBuilders process_type infos)
          Except.ok (some res.2.1,
            { s1 with
              all_state := res.1
              nextId := res.2.2
              cached_state := setAssoc (labelRepr override_label) res.2.1
                s1.cached_state })

/-- `SharedState.__init__` (preprocess.py:488): fresh state, then `self.get()`
to cache the default shared state eagerly. -/
def sharedStateInit {TU : Type} (registry : List (String × OperatorClass TU)) (config : Dict)
    (process_type : ProcessType) (preprocess_exit_step : Option Nat) (num_workers : Nat) :
    Except String SharedStateData := do
  let s0 : SharedStateData := {}
  let (_, s1) ← sharedStateGet registry config process_type preprocess_exit_step num_workers
    s0 Label.lnone
  Except.ok s1

/-! ### Concrete demonstration instances (used by witnesses) -/

/-- A trivial registered operator class: applies everywhere, no options, no
shared resources, constructor and transform with no effect. -/
def demoCls : OperatorClass Nat :=
  { is_applied_for := fun _ => true
    accept_options := false
    get_shared_classes := []
    get_shared_builders := fun _ _ => []
    init := fun _ _ bs _ => bs
    run := fun _ _ _ _ b _ => b }

/-- A registry with the single trivial operator type `t`. -/
def demoRegistry : List (String × OperatorClass Nat) := [("t", demoCls)]

/-- A configuration with two main-block operators and one postprocess-only
operator. -/
def demoConfig1 : Dict :=
  [("source", Value.vStr "en"), ("target", Value.vStr "de"),
   ("preprocess", Value.vList
     [Value.vDict [("op", Value.vStr "t")], Value.vDict [("op", Value.vStr "t")]]),
   ("postprocess", Value.vList [Value.vDict [("op", Value.vStr "t")]])]

/-- The fallback pipeline value used when extracting a build result. -/
def emptyPipeline : Pipeline Nat :=
  { ops := [], process_type := ProcessType.TRAINING, override_label := [],
    start_state := {}, build_state := {} }

/-- The pipeline built from `demoConfig1` for POSTPROCESS. -/
def demoP1 : Pipeline Nat :=
  match buildPipeline demoRegistry demoConfig1 ProcessType.POSTPROCESS none [] none with
  | Except.ok p => p
  | Except.error _ => emptyPipeline

/-- A configuration whose two operators carry the same explicit name. -/
def demoConfig9 : Dict :=
  [("source", Value.vStr "en"), ("target", Value.vStr "de"),
   ("preprocess", Value.vList
     [Value.vDict [("op", Value.vStr "t"), ("name", Value.vStr "x")],
      Value.vDict [("op", Value.vStr "t"), ("name", Value.vStr "x")]])]

/-- The pipeline built from `demoConfig9` for TRAINING. -/
def demoP9 : Pipeline Nat :=
  match buildPipeline demoRegistry demoConfig9 ProcessType.TRAINING none [] none with
  | Except.ok p => p
  | Except.error _ => emptyPipeline

/-- An operator class declaring two shared builders with the same resource
class and constructor arguments. -/
def demoSharedCls : OperatorClass Nat :=
  { demoCls with
    get_shared_builders := fun _ _ => [("al1", "Aligner", "m1"), ("al2", "Aligner", "m1")] }

/-- A registry with the single shared-resource operator type `als`. -/
def demoRegistryS : List (String × OperatorClass Nat) := [("als", demoSharedCls)]

/-- A configuration whose single operator declares shared builders. -/
def demoConfigS : Dict :=
  [("source", Value.vStr "en"), ("target", Value.vStr "de"),
   ("preprocess", Value.vList [Value.vDict [("op", Value.vStr "als")]])]

/-- The shared state of `demoConfigS` right after construction (the default
label's resources are cached eagerly). -/
def demoSharedInit : SharedStateData :=
  match sharedStateInit demoRegistryS demoConfigS ProcessType.TRAINING none 0 with
  | Except.ok s => s
  | Except.error _ => {}

/-! ### Basic lemmas about the association-list helpers -/

theorem countOf_bumpCount (name : String) (n : Nat) (l : List (String × Nat)) :
    countOf name (bumpCount name n l) = countOf name l + n := by
  induction l with
  | nil => simp [bumpCount, countOf]
  | cons e rest ih =>
      obtain ⟨k, v⟩ := e
      by_cases h : k = name <;> simp [bumpCount, countOf, h, ih]

theorem filter_preprocess_tu_eq {TU : Type} (criteria : List (TU → Bool)) (tu : TU) :
    filter_preprocess_tu criteria tu =
      if criteria.any (fun c => c tu) then [] else [tu] := by
  induction criteria with
  | nil => simp [filter_preprocess_tu]
  | cons c rest ih =>
      by_cases h : c tu <;> simp [filter_preprocess_tu, h, ih]

theorem flatten_filter_preprocess_tu {TU : Type} (criteria : List (TU → Bool))
    (tus : List TU) :
    (tus.map (filter_preprocess_tu criteria)).flatten =
      tus.filter (fun tu => !(criteria.any (fun c => c tu))) := by
  induction tus with
  | nil => simp
  | cons tu rest ih =>
      by_cases h : criteria.any (fun c => c tu) <;>
        simp [filter_preprocess_tu_eq, h, ih]

theorem length_sub_filter_not {α : Type} (p : α → Bool) (l : List α) :
    l.length - (l.filter (fun a => !(p a))).length = l.countP p := by
  induction l with
  | nil => simp
  | cons a rest ih =>
      have hle := List.length_filter_le (fun x => !(p x)) rest
      by_cases h : p a <;> simp [List.countP_cons, h] <;> omega

/-- C5: for a TRAINING batch run through a filter operator with an ordered list
of boolean predicates, a translation unit is dropped exactly when at least one
predicate holds, the surviving units keep their order, and the batch metadata's
`filter_summary` entry for the operator's name increases by the number of
dropped units (in particular, filtering a batch down to zero units is an
ordinary, non-error outcome of the same equation). -/
theorem C5_filter_drop_and_summary {TU : Type} (name : String)
    (criteria : List (TU → Bool)) (tus : List TU) (meta : BatchMeta) :
    filter_call name criteria (tus, meta) =
      (tus.filter (fun tu => !(criteria.any (fun c => c tu))),
       { meta with
         filter_summary :=
           bumpCount name (tus.countP (fun tu => criteria.any (fun c => c tu)))
             meta.filter_summary }) ∧
    countOf name (filter_call name criteria (tus, meta)).2.filter_summary =
      countOf name meta.filter_summary +
        tus.countP (fun tu => criteria.any (fun c => c tu)) := by
  have hdrop : tus.length -
      (tus.filter (fun tu => !(criteria.any (fun c => c tu)))).length =
      tus.countP (fun tu => criteria.any (fun c => c tu)) :=
    length_sub_filter_not (fun tu => criteria.any (fun c => c tu)) tus
  have hcall : filter_call name criteria (tus, meta) =
      (tus.filter (fun tu => !(criteria.any (fun c => c tu))),
       { meta with
         filter_summary :=
           bumpCount name (tus.countP (fun tu => criteria.any (fun c => c tu)))
             meta.filter_summary }) := by
    simp only [filter_call, tu_operator_preprocess, flatten_filter_preprocess_tu]
    rw [hdrop]
  refine ⟨hcall, ?_⟩
  rw [hcall]
  exact countOf_bumpCount name _ meta.filter_summary

/-! ### Override resolution (C3) -/

theorem mem_of_filter_singleton {α : Type} (p : α → Bool) (l : List α) (a : α)
    (h : l.filter p = [a]) : p a = true := by
  have : a ∈ l.filter p := by rw [h]; exact List.mem_singleton.mpr rfl
  exact (List.mem_filter.mp this).2

/-- C3: resolving an operator configuration entry that carries an override map
against an active label set returns the base parameters deep-merged with the
unique matching override when exactly one label matches, raises an ambiguity
error when more than one label matches, and returns the base parameters
unchanged when no label matches. -/
theorem C3_override_resolution (config : Dict) (operator_type : String)
    (override_label : List String) (ocd : Dict)
    (hnd : override_label.Nodup)
    (hov : lookupV "overrides" (popKey "op" config) = some (Value.vDict ocd)) :
    (∀ l, override_label.filter (fun l' => containsKey l' ocd) = [l] →
        ∃ ov, lookupV l ocd = some ov ∧
          get_operator_params config operator_type override_label =
            Except.ok (merge_config (popKey "overrides" (popKey "op" config)) ov)) ∧
    ((override_label.filter (fun l' => containsKey l' ocd)).length > 1 →
        ∃ e, get_operator_params config operator_type override_label =
          Except.error e) ∧
    (override_label.filter (fun l' => containsKey l' ocd) = [] →
        get_operator_params config operator_type override_label =
          Except.ok (popKey "overrides" (popKey "op" config))) := by
  clear hnd
  refine ⟨?_, ?_, ?_⟩
  · intro l hmatch
    have hl : containsKey l ocd = true :=
      mem_of_filter_singleton (fun l' => containsKey l' ocd) override_label l hmatch
    have hcases : override_label ≠ [] := by
      intro h; rw [h] at hmatch; simp at hmatch
    have hocd : ocd ≠ [] := by
      intro h
      rw [h] at hl
      simp [containsKey, lookupV] at hl
    obtain ⟨ov, hov'⟩ := Option.isSome_iff_exists.mp hl
    refine ⟨ov, hov', ?_⟩
    simp only [get_operator_params, hov]
    rw [if_neg, hmatch]
    · simp [hov']
    · simp [truthy, hcases, hocd, List.isEmpty_iff]
  · intro hgt
    have hcases : override_label ≠ [] := by
      intro h; rw [h] at hgt; simp at hgt
    have hocd : ocd ≠ [] := by
      intro h
      simp only [h] at hgt
      have : override_label.filter (fun l' => containsKey l' ([] : Dict)) = [] := by
        simp [containsKey, lookupV]
      rw [this] at hgt
      simp at hgt
    refine ⟨"One corpus requires different overrides for the same operator ("
      ++ operator_type ++ ").", ?_⟩
    simp only [get_operator_params, hov]
    rw [if_neg, if_pos hgt]
    simp [truthy, hcases, hocd, List.isEmpty_iff]
  · intro hzero
    simp only [get_operator_params, hov]
    by_cases hemp : override_label.isEmpty || !(truthy (Value.vDict ocd))
    · rw [if_pos hemp]
    · rw [if_neg hemp, hzero]
      simp

/-- Witness for C3, at the spec's own example: overrides `A ↦ cfgA`,
`B ↦ cfgB` with active label set `A`. -/
theorem C3_override_resolution_witness :
    (["A"] : List String).Nodup ∧
    ∃ ov, lookupV "A"
        [("A", Value.vDict [("x", Value.vNat 1)]), ("B", Value.vDict [("x", Value.vNat 2)])] =
          some ov ∧
      get_operator_params
        [("op", Value.vStr "tok"),
         ("overrides", Value.vDict
           [("A", Value.vDict [("x", Value.vNat 1)]),
            ("B", Value.vDict [("x", Value.vNat 2)])]),
         ("x", Value.vNat 0)] "tok" ["A"] =
        Except.ok (merge_config [("x", Value.vNat 0)] ov) := by
  refine ⟨by decide, ?_⟩
  have h := (C3_override_resolution
    [("op", Value.vStr "tok"),
     ("overrides", Value.vDict
       [("A", Value.vDict [("x", Value.vNat 1)]),
        ("B", Value.vDict [("x", Value.vNat 2)])]),
     ("x", Value.vNat 0)] "tok" ["A"]
    [("A", Value.vDict [("x", Value.vNat 1)]), ("B", Value.vDict [("x", Value.vNat 2)])]
    (by decide) rfl).1 "A" rfl
  exact h

/-! ### Generic lemmas about `Except` computations -/

theorem exceptBindOk {ε α β : Type} (a : α) (f : α → Except ε β) :
    (Except.ok a >>= f) = f a := rfl

theorem exceptBindErr {ε α β : Type} (e : ε) (f : α → Except ε β) :
    ((Except.error e : Except ε α) >>= f) = Except.error e := rfl

theorem exceptMapOk {ε α β : Type} (f : α → β) (a : α) :
    (Except.map f (Except.ok a) : Except ε β) = Except.ok (f a) := rfl

theorem exceptMapErr {ε α β : Type} (f : α → β) (e : ε) :
    (Except.map f (Except.error e : Except ε α)) = Except.error e := rfl

theorem except_bind_congr {ε α β : Type} (x : Except ε α) (f g : α → Except ε β)
    (h : ∀ a, f a = g a) : x >>= f = x >>= g := by
  cases x with
  | error e => rfl
  | ok a => simp only [exceptBindOk, h]

theorem except_bind_map_comm {ε α β γ δ : Type} (x : Except ε α) (k : α → Except ε β)
    (h1 : α → β → γ) (h3 : α → β → δ) (h2 : δ → γ)
    (hcomm : ∀ a b, h1 a b = h2 (h3 a b)) :
    (x >>= fun a => Except.map (h1 a) (k a)) =
      Except.map h2 (x >>= fun a => Except.map (h3 a) (k a)) := by
  cases x with
  | error e => rfl
  | ok a =>
      simp only [exceptBindOk]
      cases k a with
      | error e => rfl
      | ok b => simp only [exceptMapOk, hcomm]

/-! ### Pipeline assembly (C1) -/

theorem add_ops_append {TU : Type} (g : Dict) (pt : ProcessType)
    (ss : Option (List (Nat × SharedRes)))
    (infos : List (OperatorClass TU × Dict × String × Nat))
    (ops0 : List (BuiltOperator TU)) (bs : BuildState) :
    add_ops g pt ss infos ops0 bs =
      (add_ops g pt ss infos [] bs).map (fun r => (ops0 ++ r.1, r.2)) := by
  induction infos generalizing ops0 bs with
  | nil => simp [add_ops, Except.map]
  | cons info rest ih =>
      obtain ⟨cls, params, opType, i⟩ := info
      simp only [add_ops]
      generalize build_operator opType cls params g pt bs i (sharedFor ss i) = x
      cases x with
      | error e => rfl
      | ok r =>
          obtain ⟨op, bs'⟩ := r
          simp only [exceptBindOk, List.nil_append]
          rw [ih (ops0 ++ [op]) bs', ih [op] bs']
          cases add_ops g pt ss rest [] bs' with
          | error e => rfl
          | ok r2 => simp [Except.map]

theorem add_op_list_append {TU : Type} (registry : List (String × OperatorClass TU))
    (g : Dict) (pt : ProcessType) (lb : List String) (cfg : List Dict)
    (es : Option Nat) (ss : Option (List (Nat × SharedRes)))
    (ops0 : List (BuiltOperator TU)) (bs : BuildState) :
    add_op_list registry g pt lb cfg es ss ops0 bs =
      (add_op_list registry g pt lb cfg es ss [] bs).map (fun r => (ops0 ++ r.1, r.2)) := by
  simp only [add_op_list]
  cases operator_info_gen registry pt lb es true cfg 0 with
  | error e => rfl
  | ok infos =>
      simp only [exceptBindOk]
      exact add_ops_append g pt ss infos ops0 bs

/-- C1: a pipeline successfully built for POSTPROCESS consists of the reverse
of the main (preprocess) operator sequence constructed for this build, followed
by the postprocess-only operator list in its original order; its start state is
the build state reached after the main construction, and the postprocess-only
block is constructed from the original start state with the postprocess-only
flag set after the swap, yielding the final build state. -/
theorem C1_postprocess_build {TU : Type} (registry : List (String × OperatorClass TU))
    (config : Dict) (exit_step : Option Nat) (label : List String)
    (shared : Option (List (Nat × SharedRes))) (p : Pipeline TU)
    (hb : buildPipeline registry config ProcessType.POSTPROCESS exit_step label shared =
      Except.ok p) :
    ∃ pcfg postcfg mainOps s1 postOps s2,
      getOpListD config "preprocess" = Except.ok pcfg ∧
      getOpListD config "postprocess" = Except.ok postcfg ∧
      add_op_list registry config ProcessType.POSTPROCESS label pcfg exit_step shared
        [] (initStartState config) = Except.ok (mainOps, s1) ∧
      add_op_list registry config ProcessType.POSTPROCESS label postcfg none none
        [] { initStartState config with postprocess_only := true } =
          Except.ok (postOps, s2) ∧
      p.ops = mainOps.reverse ++ postOps ∧
      p.start_state = s1 ∧
      p.build_state = s2 := by
  simp only [buildPipeline] at hb
  cases h1 : getOpListD config "preprocess" with
  | error e => rw [h1, exceptBindErr] at hb; exact absurd hb (by simp)
  | ok pcfg =>
      rw [h1, exceptBindOk] at hb
      cases h2 : add_op_list registry config ProcessType.POSTPROCESS label pcfg
          exit_step shared [] (initStartState config) with
      | error e => rw [h2, exceptBindErr] at hb; exact absurd hb (by simp)
      | ok r =>
          obtain ⟨mainOps, s1⟩ := r
          rw [h2, exceptBindOk, if_pos trivial] at hb
          cases h3 : getOpListD config "postprocess" with
          | error e => rw [h3, exceptBindErr] at hb; exact absurd hb (by simp)
          | ok postcfg =>
              rw [h3, exceptBindOk] at hb
              rw [add_op_list_append registry config ProcessType.POSTPROCESS label postcfg
                none none mainOps.reverse
                { initStartState config with postprocess_only := true }] at hb
              cases h4 : add_op_list registry config ProcessType.POSTPROCESS label postcfg
                  none none [] { initStartState config with postprocess_only := true } with
              | error e => rw [h4, exceptMapErr, exceptBindErr] at hb; exact absurd hb (by simp)
              | ok r' =>
                  obtain ⟨postOps, s2⟩ := r'
                  rw [h4, exceptMapOk, exceptBindOk] at hb
                  simp only [Except.ok.injEq] at hb
                  refine ⟨pcfg, postcfg, mainOps, s1, postOps, s2, ?_, ?_, ?_, ?_, ?_, ?_, ?_⟩
                    <;> first
                    | rfl
                    | exact h2
                    | exact h4
                    | rw [← hb]

/-- Witness for C1 at a concrete two-operator main block and one-operator
postprocess block. -/
theorem C1_postprocess_build_witness :
    ∃ pcfg postcfg mainOps s1 postOps s2,
      getOpListD demoConfig1 "preprocess" = Except.ok pcfg ∧
      getOpListD demoConfig1 "postprocess" = Except.ok postcfg ∧
      add_op_list demoRegistry demoConfig1 ProcessType.POSTPROCESS [] pcfg none none
        [] (initStartState demoConfig1) = Except.ok (mainOps, s1) ∧
      add_op_list demoRegistry demoConfig1 ProcessType.POSTPROCESS [] postcfg none none
        [] { initStartState demoConfig1 with postprocess_only := true } =
          Except.ok (postOps, s2) ∧
      demoP1.ops = mainOps.reverse ++ postOps ∧
      demoP1.start_state = s1 ∧
      demoP1.build_state = s2 :=
  C1_postprocess_build demoRegistry demoConfig1 none [] none demoP1 rfl

/-! ### Runtime options (C7, C10) -/

theorem optGuard_eq (options : List (String × Value)) (n : String) :
    (if options.isEmpty then none else lookupV n options) = lookupV n options := by
  cases options <;> simp [lookupV]

theorem truthy_not_none (v : Value) (h : truthy v = true) : isNoneV v = false := by
  cases v <;> simp_all [truthy, isNoneV]

theorem pipelineRunOps_error_of_bad_option {TU : Type} (options : List (String × Value))
    (ops : List (BuiltOperator TU)) (batch : List TU × BatchMeta)
    (prof : Option (List (String × Nat)))
    (hbad : ∃ op ∈ ops, ∃ v, lookupV op.name options = some v ∧ truthy v = true ∧
      op.cls.accept_options = false) :
    ∃ e, pipelineRunOps options ops batch prof = Except.error e := by
  induction ops generalizing batch prof with
  | nil => obtain ⟨op, hop, _⟩ := hbad; exact absurd hop (by simp)
  | cons op rest ih =>
      simp only [pipelineRunOps, optGuard_eq]
      obtain ⟨op', hop', v', hv', ht', ha'⟩ := hbad
      rcases List.mem_cons.mp hop' with heq | hmem
      · subst heq
        have hn := truthy_not_none v' ht'
        rw [hv']
        simp [hn, ha']
      · cases hop : lookupV op.name options with
        | some v =>
            cases hn : isNoneV v with
            | true => simpa [hn] using ih _ _ ⟨op', hmem, v', hv', ht', ha'⟩
            | false =>
                cases hacc : op.cls.accept_options with
                | true => simpa [hn, hacc] using ih _ _ ⟨op', hmem, v', hv', ht', ha'⟩
                | false => simp [hn, hacc]
        | none => exact ih _ _ ⟨op', hmem, v', hv', ht', ha'⟩

theorem pipelineRunOps_ok_of_supported {TU : Type} (options : List (String × Value))
    (ops : List (BuiltOperator TU))
    (hgood : ∀ op ∈ ops, ∀ v, lookupV op.name options = some v → isNoneV v = false →
      op.cls.accept_options = true) :
    ∀ (batch : List TU × BatchMeta) (prof : Option (List (String × Nat))),
      pipelineRunOps options ops batch prof =
        Except.ok (pipelineRunOpsNoCheck options ops batch prof) := by
  induction ops with
  | nil => intro batch prof; rfl
  | cons op rest ih =>
      intro batch prof
      have hgood' : ∀ op' ∈ rest, ∀ v, lookupV op'.name options = some v →
          isNoneV v = false → op'.cls.accept_options = true :=
        fun op' h' => hgood op' (List.mem_cons_of_mem op h')
      simp only [pipelineRunOps, pipelineRunOpsNoCheck, optGuard_eq]
      cases hop : lookupV op.name options with
      | some v =>
          cases hn : isNoneV v with
          | true => simpa [hn] using ih hgood' _ _
          | false =>
              have hacc := hgood op (List.mem_cons_self op rest) v hop hn
              simpa [hn, hacc] using ih hgood' _ _
      | none => exact ih hgood' _ _

/-- C7: a pipeline invocation given a per-call options mapping raises an error
when some operator of the pipeline is addressed with a non-empty option payload
but does not declare option support; when every addressed operator declares
option support, no such error is raised and each payload is passed to its
operator (the run equals the check-free reference run). -/
theorem C7_runtime_option_support {TU : Type} (p : Pipeline TU)
    (finalize : ProcessType → TU → TU) (batch : List TU × BatchMeta)
    (options : List (String × Value)) :
    ((∃ op ∈ p.ops, ∃ v, lookupV op.name options = some v ∧ truthy v = true ∧
        op.cls.accept_options = false) →
      ∃ e, pipeline_call p finalize batch options = Except.error e) ∧
    ((∀ op ∈ p.ops, ∀ v, lookupV op.name options = some v → isNoneV v = false →
        op.cls.accept_options = true) →
      pipelineRunOps options p.ops batch
          (if p.process_type = ProcessType.TRAINING then some [] else none) =
        Except.ok (pipelineRunOpsNoCheck options p.ops batch
          (if p.process_type = ProcessType.TRAINING then some [] else none)) ∧
      ∃ r, pipeline_call p finalize batch options = Except.ok r) := by
  constructor
  · intro hbad
    obtain ⟨e, he⟩ := pipelineRunOps_error_of_bad_option options p.ops batch
      (if p.process_type = ProcessType.TRAINING then some [] else none) hbad
    refine ⟨e, ?_⟩
    simp only [pipeline_call, he, exceptBindErr]
  · intro hgood
    have h := pipelineRunOps_ok_of_supported options p.ops hgood batch
      (if p.process_type = ProcessType.TRAINING then some [] else none)
    refine ⟨h, ?_⟩
    simp only [pipeline_call, h, exceptBindOk]
    exact ⟨_, rfl⟩

/-- The pipeline built from `demoConfig1` for TRAINING (operators `t_0`, `t_1`,
neither accepting options). -/
def demoP10 : Pipeline Nat :=
  match buildPipeline demoRegistry demoConfig1 ProcessType.TRAINING none [] none with
  | Except.ok p => p
  | Except.error _ => emptyPipeline

/-- Witness for C7: addressing `t_0` (which refuses options) with a truthy
payload errors; with no options supplied the run succeeds and equals the
check-free reference run. -/
theorem C7_runtime_option_support_witness :
    (∃ e, pipeline_call demoP10 (fun _ tu => tu) ([1], {}) [("t_0", Value.vNat 1)] =
      Except.error e) ∧
    (pipelineRunOps ([] : List (String × Value)) demoP10.ops ([1], {})
        (if demoP10.process_type = ProcessType.TRAINING then some [] else none) =
      Except.ok (pipelineRunOpsNoCheck [] demoP10.ops ([1], {})
        (if demoP10.process_type = ProcessType.TRAINING then some [] else none)) ∧
      ∃ r, pipeline_call demoP10 (fun _ tu => tu) ([1], {}) [] = Except.ok r) :=
  ⟨(C7_runtime_option_support demoP10 (fun _ tu => tu) ([1], {})
        [("t_0", Value.vNat 1)]).1
      ⟨demoP10.ops.get ⟨0, by decide⟩, List.get_mem _ _ _, Value.vNat 1, rfl, rfl, rfl⟩,
   (C7_runtime_option_support demoP10 (fun _ tu => tu) ([1], {}) []).2
      (fun _op _hop _v hv _ => absurd hv (by simp [lookupV]))⟩

theorem lookupV_filter_ne (options : List (String × Value)) (k n : String) (h : n ≠ k) :
    lookupV n (options.filter (fun e => !(e.1 == k))) = lookupV n options := by
  induction options with
  | nil => rfl
  | cons e rest ih =>
      obtain ⟨k', v'⟩ := e
      by_cases hk : k' = k
      · subst hk
        have hne : ¬(k' = n) := fun hc => h hc.symm
        simp [lookupV, hne, ih]
      · by_cases hn : k' = n
        · subst hn
          simp [lookupV, hk, h]
        · simp [lookupV, hk, hn, ih]

theorem pipelineRunOps_filter_irrelevant {TU : Type} (options : List (String × Value))
    (k : String) (ops : List (BuiltOperator TU))
    (hk : ∀ op ∈ ops, op.name ≠ k) :
    ∀ (batch : List TU × BatchMeta) (prof : Option (List (String × Nat))),
      pipelineRunOps (options.filter (fun e => !(e.1 == k))) ops batch prof =
        pipelineRunOps options ops batch prof := by
  induction ops with
  | nil => intro batch prof; rfl
  | cons op rest ih =>
      intro batch prof
      have hk' : ∀ op' ∈ rest, op'.name ≠ k := fun op' h' => hk op' (List.mem_cons_of_mem op h')
      have hname : op.name ≠ k := hk op (List.mem_cons_self op rest)
      simp only [pipelineRunOps]
      rw [optGuard_eq (options.filter (fun e => !(e.1 == k))) op.name,
        optGuard_eq options op.name, lookupV_filter_ne options k op.name hname]
      cases lookupV op.name options with
      | some v =>
          cases hn : isNoneV v with
          | true => simpa [hn] using ih hk' _ _
          | false =>
              cases hacc : op.cls.accept_options with
              | true => simpa [hn, hacc] using ih hk' _ _
              | false => simp [hn, hacc]
      | none => exact ih hk' _ _

/-- C10: an entry of the per-call options mapping whose key names no operator
bound in the pipeline is silently ignored: the call returns exactly what it
returns with that entry removed. -/
theorem C10_unknown_option_key_ignored {TU : Type} (p : Pipeline TU)
    (finalize : ProcessType → TU → TU) (batch : List TU × BatchMeta)
    (options : List (String × Value)) (k : String)
    (hk : ∀ op ∈ p.ops, op.name ≠ k) :
    pipeline_call p finalize batch options =
      pipeline_call p finalize batch (options.filter (fun e => !(e.1 == k))) := by
  simp only [pipeline_call,
    pipelineRunOps_filter_irrelevant options k p.ops hk batch
      (if p.process_type = ProcessType.TRAINING then some [] else none)]

/-- Witness for C10: an options entry keyed `zzz`, which names no operator of
the demo pipeline, leaves the call unchanged. -/
theorem C10_unknown_option_key_ignored_witness :
    pipeline_call demoP10 (fun _ tu => tu) ([1, 2], {}) [("zzz", Value.vNat 1)] =
      pipeline_call demoP10 (fun _ tu => tu) ([1, 2], {})
        ([("zzz", Value.vNat 1)].filter (fun e => !(e.1 == "zzz"))) :=
  C10_unknown_option_key_ignored demoP10 (fun _ tu => tu) ([1, 2], {})
    [("zzz", Value.vNat 1)] "zzz"
    (by
      intro op hop
      have hm : op.name ∈ demoP10.ops.map BuiltOperator.name := List.mem_map_of_mem _ hop
      have hops : demoP10.ops.map BuiltOperator.name = ["t_0", "t_1"] := rfl
      rw [hops] at hm
      rcases List.mem_cons.mp hm with h | h
      · rw [h]; decide
      · rcases List.mem_cons.mp h with h' | h'
        · rw [h']; decide
        · exact absurd h' (by simp))

/-! ### Parallel batch processing (C2, C6) -/

theorem okVals_append {O : Type} (a b : List (Nat × Except String O)) :
    okVals (a ++ b) = okVals a ++ okVals b := by
  simp [okVals]

theorem drainAll_all_ok {O : Type} (q : List (Nat × Except String O))
    (hq : ∀ e ∈ q, ∃ o, e.2 = Except.ok o) :
    drainAll q = (okVals q, none) := by
  induction q with
  | nil => rfl
  | cons e rest ih =>
      obtain ⟨i, r⟩ := e
      obtain ⟨o, ho⟩ := hq (i, r) (List.mem_cons_self _ _)
      have ho' : r = Except.ok o := ho
      subst ho'
      have h := ih (fun e he => hq e (List.mem_cons_of_mem _ he))
      have hres : drainAll ((i, Except.ok o) :: rest) =
          (o :: (drainAll rest).1, (drainAll rest).2) := by
        simp [drainAll]
      rw [hres, h]
      simp [okVals, Except.toOption]

theorem drainReady_all_ok {O : Type} (T : Nat → Nat) (c : Nat)
    (q : List (Nat × Except String O))
    (hq : ∀ e ∈ q, ∃ o, e.2 = Except.ok o) :
    (drainReady T c q).2.1 = none ∧
    okVals q = (drainReady T c q).1 ++ okVals (drainReady T c q).2.2 ∧
    (∀ e ∈ (drainReady T c q).2.2, ∃ o, e.2 = Except.ok o) ∧
    (drainReady T c q).2.2.length ≤ q.length := by
  induction q with
  | nil => exact ⟨rfl, rfl, by simp [drainReady], by simp [drainReady]⟩
  | cons e rest ih =>
      obtain ⟨i, r⟩ := e
      obtain ⟨o, ho⟩ := hq (i, r) (List.mem_cons_self _ _)
      have ho' : r = Except.ok o := ho
      subst ho'
      by_cases hready : T i ≤ c
      · obtain ⟨herr, houts, hok, hlen⟩ :=
          ih (fun e he => hq e (List.mem_cons_of_mem _ he))
        rcases hdr : drainReady T c rest with ⟨outs, err, q'⟩
        rw [hdr] at herr houts hok hlen
        simp only at herr houts hok hlen
        subst herr
        have hres : drainReady T c ((i, Except.ok o) :: rest) = (o :: outs, none, q') := by
          simp [drainReady, hready, hdr]
        rw [hres]
        refine ⟨rfl, ?_, hok, ?_⟩
        · have hcons : okVals ((i, Except.ok o) :: rest) = o :: okVals rest := by
            simp [okVals, Except.toOption]
          rw [hcons, houts]
          rfl
        · simp only [List.length_cons]
          omega
      · have hres : drainReady T c ((i, Except.ok o) :: rest) =
            ([], none, (i, Except.ok o) :: rest) := by
          simp [drainReady, hready]
        rw [hres]
        exact ⟨rfl, rfl, hq, Nat.le_refl _⟩

theorem drainReady_pops_ready_head {O : Type} (T : Nat → Nat) (c i : Nat) (o : O)
    (rest : List (Nat × Except String O))
    (hready : T i ≤ c)
    (hrest : ∀ e ∈ rest, ∃ o', e.2 = Except.ok o') :
    (drainReady T c ((i, Except.ok o) :: rest)).2.2.length ≤ rest.length := by
  have hlen := (drainReady_all_ok T c rest hrest).2.2.2
  rcases hdr : drainReady T c rest with ⟨outs, err, q'⟩
  rw [hdr] at hlen
  have hres : drainReady T c ((i, Except.ok o) :: rest) = (o :: outs, err, q') := by
    simp [drainReady, hready, hdr]
  rw [hres]
  simpa using hlen

theorem procLoop_all_ok {B O : Type} (N : Nat) (f : B → Except String O) (g : B → O)
    (T adv : Nat → Nat) (hf : ∀ b, f b = Except.ok (g b)) :
    ∀ (bs : List B) (c idx : Nat) (q : List (Nat × Except String O)),
      (∀ e ∈ q, ∃ o, e.2 = Except.ok o) → q.length + 1 ≤ 2 * N →
      (procLoop N f T adv bs c idx q).2.2 = none ∧
      (procLoop N f T adv bs c idx q).2.1 = okVals q ++ bs.map g ∧
      ∀ l ∈ (procLoop N f T adv bs c idx q).1, l ≤ 2 * N := by
  intro bs
  induction bs with
  | nil =>
      intro c idx q hq _hlen
      have h := drainAll_all_ok q hq
      have hres : procLoop N f T adv [] c idx q =
          ([], (drainAll q).1, (drainAll q).2) := by
        simp [procLoop]
      rw [hres, h]
      exact ⟨rfl, by simp, by simp⟩
  | cons b rest ih =>
      intro c idx q hq hlen
      have hq1 : ∀ e ∈ q ++ [(idx, f b)], ∃ o, e.2 = Except.ok o := by
        intro e he
        rcases List.mem_append.mp he with h | h
        · exact hq e h
        · simp only [List.mem_singleton] at h
          subst h
          exact ⟨g b, by simp [hf b]⟩
      obtain ⟨herr, houts, hok2, hlen2⟩ := drainReady_all_ok T
        (if (q ++ [(idx, f b)]).length == 2 * N
         then waitHead T (c + adv idx) (q ++ [(idx, f b)]) else (c + adv idx))
        (q ++ [(idx, f b)]) hq1
      rcases hdr : drainReady T
          (if (q ++ [(idx, f b)]).length == 2 * N
           then waitHead T (c + adv idx) (q ++ [(idx, f b)]) else (c + adv idx))
          (q ++ [(idx, f b)]) with ⟨outs1, err, q2⟩
      rw [hdr] at herr houts hok2 hlen2
      simp only at herr houts hok2 hlen2
      subst herr
      have hq2len : q2.length + 1 ≤ 2 * N := by
        cases hbe : (q ++ [(idx, f b)]).length == 2 * N with
        | false =>
            have h1 : ¬((q ++ [(idx, f b)]).length = 2 * N) := by simpa using hbe
            have h2 : (q ++ [(idx, f b)]).length = q.length + 1 := by simp
            omega
        | true =>
            rcases hsplit : q ++ [(idx, f b)] with _ | ⟨⟨i0, r0⟩, tl⟩
            · exact absurd hsplit (by simp)
            · obtain ⟨o0, ho0⟩ := hq1 (i0, r0) (by rw [hsplit]; exact List.mem_cons_self _ _)
              have ho0' : r0 = Except.ok o0 := ho0
              subst ho0'
              rw [hbe] at hdr
              rw [if_pos rfl] at hdr
              rw [hsplit] at hdr
              have hT : T i0 ≤ waitHead T (c + adv idx) ((i0, Except.ok o0) :: tl) := by
                simp only [waitHead]
                exact Nat.le_max_right _ _
              have hpop := drainReady_pops_ready_head T
                (waitHead T (c + adv idx) ((i0, Except.ok o0) :: tl)) i0 o0 tl hT
                (fun e he => hq1 e (by rw [hsplit]; exact List.mem_cons_of_mem _ he))
              rw [hdr] at hpop
              simp only at hpop
              have hq1len : (q ++ [(idx, f b)]).length = 2 * N := by simpa using hbe
              rw [hsplit] at hq1len
              simp only [List.length_cons] at hq1len
              omega
      obtain ⟨hrerr, hrout, hrtr⟩ := ih
        (if (q ++ [(idx, f b)]).length == 2 * N
         then waitHead T (c + adv idx) (q ++ [(idx, f b)]) else (c + adv idx))
        (idx + 1) q2 hok2 hq2len
      have hgoal : procLoop N f T adv (b :: rest) c idx q =
          ((q ++ [(idx, f b)]).length ::
            (procLoop N f T adv rest
              (if (q ++ [(idx, f b)]).length == 2 * N
               then waitHead T (c + adv idx) (q ++ [(idx, f b)]) else (c + adv idx))
              (idx + 1) q2).1,
           outs1 ++ (procLoop N f T adv rest
              (if (q ++ [(idx, f b)]).length == 2 * N
               then waitHead T (c + adv idx) (q ++ [(idx, f b)]) else (c + adv idx))
              (idx + 1) q2).2.1,
           (procLoop N f T adv rest
              (if (q ++ [(idx, f b)]).length == 2 * N
               then waitHead T (c + adv idx) (q ++ [(idx, f b)]) else (c + adv idx))
              (idx + 1) q2).2.2) := by
        simp only [procLoop, hdr]
      refine ⟨?_, ?_, ?_⟩
      · rw [hgoal]
        exact hrerr
      · rw [hgoal]
        simp only [hrout]
        rw [← List.append_assoc, ← houts]
        simp [okVals_append, okVals, hf b, Except.toOption]
      · rw [hgoal]
        intro l hl
        simp only [List.mem_cons] at hl
        rcases hl with hl | hl
        · subst hl
          simp only [List.length_append, List.length_singleton]
          omega
        · exact hrtr l hl

/-- C2: running the parallel batch processor with `N ≥ 1` workers over any
loader batch sequence and any adversarial completion schedule, the outstanding
submission count never exceeds `2 N` (each post-submission queue length is at
most `2 N`, submission waiting on the oldest result at the cap), and the
consumer receives exactly the processed batches in loader-submission order. -/
theorem C2_parallel_bounded_ordered {B O : Type} (N : Nat) (f : B → Except String O)
    (g : B → O) (T adv : Nat → Nat) (batches : List B)
    (hN : 1 ≤ N) (hf : ∀ b, f b = Except.ok (g b)) :
    (processorProcessParallel N f T adv batches).2.2 = none ∧
    (processorProcessParallel N f T adv batches).2.1 = batches.map g ∧
    ∀ l ∈ (processorProcessParallel N f T adv batches).1, l ≤ 2 * N := by
  have h := procLoop_all_ok N f g T adv hf batches 0 0 [] (by simp)
    (by simp only [List.length_nil]; omega)
  simpa [processorProcessParallel, okVals] using h

/-- Witness for C2: one worker, five batches, an out-of-order completion
schedule. -/
theorem C2_parallel_bounded_ordered_witness :
    (processorProcessParallel 1 (fun b => Except.ok (b + 1)) (fun i => 10 - i)
      (fun _ => 1) [5, 6, 7, 8, 9]).2.2 = none ∧
    (processorProcessParallel 1 (fun b => Except.ok (b + 1)) (fun i => 10 - i)
      (fun _ => 1) [5, 6, 7, 8, 9]).2.1 = [6, 7, 8, 9, 10] ∧
    ∀ l ∈ (processorProcessParallel 1 (fun b => Except.ok (b + 1)) (fun i => 10 - i)
      (fun _ => 1) [5, 6, 7, 8, 9]).1, l ≤ 2 * 1 := by
  have h := C2_parallel_bounded_ordered 1 (fun b => Except.ok (b + 1)) (fun b => b + 1)
    (fun i => 10 - i) (fun _ => 1) [5, 6, 7, 8, 9] (by decide) (fun b => rfl)
  simpa using h

theorem drainReady_cons_ok_ready {O : Type} (T : Nat → Nat) (c i : Nat) (o : O)
    (rest : List (Nat × Except String O)) (hready : T i ≤ c) :
    drainReady T c ((i, Except.ok o) :: rest) =
      (o :: (drainReady T c rest).1, (drainReady T c rest).2.1,
       (drainReady T c rest).2.2) := by
  rcases hdr : drainReady T c rest with ⟨outs, err, q⟩
  simp [drainReady, hready, hdr]

theorem drainReady_cons_error_ready {O : Type} (T : Nat → Nat) (c j : Nat) (e : String)
    (rest : List (Nat × Except String O)) (hready : T j ≤ c) :
    drainReady T c ((j, Except.error e) :: rest) = ([], some e, rest) := by
  simp [drainReady, hready]

theorem drainReady_cons_notready {O : Type} (T : Nat → Nat) (c i : Nat)
    (r : Except String O) (rest : List (Nat × Except String O)) (h : ¬(T i ≤ c)) :
    drainReady T c ((i, r) :: rest) = ([], none, (i, r) :: rest) := by
  simp [drainReady, h]

theorem drainAll_error {O : Type} (oks : List (Nat × Except String O)) (j : Nat)
    (e : String) (rest : List (Nat × Except String O))
    (hoks : ∀ x ∈ oks, ∃ o, x.2 = Except.ok o) :
    drainAll (oks ++ (j, Except.error e) :: rest) = (okVals oks, some e) := by
  induction oks with
  | nil => simp [drainAll, okVals]
  | cons x tl ih =>
      obtain ⟨i, r⟩ := x
      obtain ⟨o, ho⟩ := hoks (i, r) (List.mem_cons_self _ _)
      have ho' : r = Except.ok o := ho
      subst ho'
      have h := ih (fun x hx => hoks x (List.mem_cons_of_mem _ hx))
      have hres : drainAll ((i, Except.ok o) :: (tl ++ (j, Except.error e) :: rest)) =
          (o :: (drainAll (tl ++ (j, Except.error e) :: rest)).1,
           (drainAll (tl ++ (j, Except.error e) :: rest)).2) := by
        simp [drainAll]
      rw [List.cons_append, hres, h]
      simp [okVals, Except.toOption]

theorem drainReady_with_error {O : Type} (T : Nat → Nat) (c : Nat)
    (oks : List (Nat × Except String O)) (j : Nat) (e : String)
    (rest : List (Nat × Except String O))
    (hoks : ∀ x ∈ oks, ∃ o, x.2 = Except.ok o) :
    drainReady T c (oks ++ (j, Except.error e) :: rest) =
      (okVals oks, some e, rest) ∨
    ∃ outs1 oks2, drainReady T c (oks ++ (j, Except.error e) :: rest) =
      (outs1, none, oks2 ++ (j, Except.error e) :: rest) ∧
      (∀ x ∈ oks2, ∃ o, x.2 = Except.ok o) ∧
      okVals oks = outs1 ++ okVals oks2 := by
  induction oks with
  | nil =>
      by_cases hready : T j ≤ c
      · left
        simpa [okVals] using drainReady_cons_error_ready T c j e rest hready
      · right
        refine ⟨[], [], ?_, by simp, by simp [okVals]⟩
        simpa using drainReady_cons_notready T c j (Except.error e) rest hready
  | cons x tl ih =>
      obtain ⟨i, r⟩ := x
      obtain ⟨o, ho⟩ := hoks (i, r) (List.mem_cons_self _ _)
      have ho' : r = Except.ok o := ho
      subst ho'
      have hcons : okVals ((i, Except.ok o) :: tl) = o :: okVals tl := by
        simp [okVals, Except.toOption]
      by_cases hready : T i ≤ c
      · have hstep := drainReady_cons_ok_ready T c i o (tl ++ (j, Except.error e) :: rest)
          hready
        rcases ih (fun x hx => hoks x (List.mem_cons_of_mem _ hx)) with
          h | ⟨outs1, oks2, hdr, hok2, hov⟩
        · left
          rw [List.cons_append, hstep, h, hcons]
        · right
          refine ⟨o :: outs1, oks2, ?_, hok2, ?_⟩
          · rw [List.cons_append, hstep, hdr]
          · rw [hcons, hov]
            rfl
      · right
        refine ⟨[], (i, Except.ok o) :: tl, ?_, hoks, by simp⟩
        rw [List.cons_append]
        exact drainReady_cons_notready T c i (Except.ok o)
          (tl ++ (j, Except.error e) :: rest) hready

theorem procLoop_pending_error {B O : Type} (N : Nat) (f : B → Except String O)
    (T adv : Nat → Nat) (j : Nat) (e : String) :
    ∀ (bs : List B) (c idx : Nat) (oks rest : List (Nat × Except String O)),
      (∀ x ∈ oks, ∃ o, x.2 = Except.ok o) →
      (procLoop N f T adv bs c idx (oks ++ (j, Except.error e) :: rest)).2 =
        (okVals oks, some e) := by
  intro bs
  induction bs with
  | nil =>
      intro c idx oks rest hoks
      have h := drainAll_error oks j e rest hoks
      have hres : procLoop N f T adv [] c idx (oks ++ (j, Except.error e) :: rest) =
          ([], (drainAll (oks ++ (j, Except.error e) :: rest)).1,
           (drainAll (oks ++ (j, Except.error e) :: rest)).2) := by
        simp [procLoop]
      rw [hres, h]
  | cons b bs ih =>
      intro c idx oks rest hoks
      have happ : (oks ++ (j, Except.error e) :: rest) ++ [(idx, f b)] =
          oks ++ (j, Except.error e) :: (rest ++ [(idx, f b)]) := by
        simp
      have hsplit := drainReady_with_error T
        (if ((oks ++ (j, Except.error e) :: rest) ++ [(idx, f b)]).length == 2 * N
         then waitHead T (c + adv idx) ((oks ++ (j, Except.error e) :: rest) ++ [(idx, f b)])
         else (c + adv idx))
        oks j e (rest ++ [(idx, f b)]) hoks
      rw [← happ] at hsplit
      rcases hsplit with h | ⟨outs1, oks2, hdr, hok2, hov⟩
      · have hgoal : procLoop N f T adv (b :: bs) c idx (oks ++ (j, Except.error e) :: rest) =
            ([((oks ++ (j, Except.error e) :: rest) ++ [(idx, f b)]).length],
             okVals oks, some e) := by
          simp only [procLoop, h]
        rw [hgoal]
      · have hgoal : procLoop N f T adv (b :: bs) c idx (oks ++ (j, Except.error e) :: rest) =
            (((oks ++ (j, Except.error e) :: rest) ++ [(idx, f b)]).length ::
              (procLoop N f T adv bs
                (if ((oks ++ (j, Except.error e) :: rest) ++ [(idx, f b)]).length == 2 * N
                 then waitHead T (c + adv idx)
                   ((oks ++ (j, Except.error e) :: rest) ++ [(idx, f b)])
                 else (c + adv idx))
                (idx + 1) (oks2 ++ (j, Except.error e) :: (rest ++ [(idx, f b)]))).1,
             outs1 ++ (procLoop N f T adv bs
                (if ((oks ++ (j, Except.error e) :: rest) ++ [(idx, f b)]).length == 2 * N
                 then waitHead T (c + adv idx)
                   ((oks ++ (j, Except.error e) :: rest) ++ [(idx, f b)])
                 else (c + adv idx))
                (idx + 1) (oks2 ++ (j, Except.error e) :: (rest ++ [(idx, f b)]))).2.1,
             (procLoop N f T adv bs
                (if ((oks ++ (j, Except.error e) :: rest) ++ [(idx, f b)]).length == 2 * N
                 then waitHead T (c + adv idx)
                   ((oks ++ (j, Except.error e) :: rest) ++ [(idx, f b)])
                 else (c + adv idx))
                (idx + 1) (oks2 ++ (j, Except.error e) :: (rest ++ [(idx, f b)]))).2.2) := by
          simp only [procLoop, hdr]
        rw [hgoal]
        have hrec := ih
          (if ((oks ++ (j, Except.error e) :: rest) ++ [(idx, f b)]).length == 2 * N
           then waitHead T (c + adv idx)
             ((oks ++ (j, Except.error e) :: rest) ++ [(idx, f b)])
           else (c + adv idx))
          (idx + 1) oks2 (rest ++ [(idx, f b)]) hok2
        rcases hrl : procLoop N f T adv bs
            (if ((oks ++ (j, Except.error e) :: rest) ++ [(idx, f b)]).length == 2 * N
             then waitHead T (c + adv idx)
               ((oks ++ (j, Except.error e) :: rest) ++ [(idx, f b)])
             else (c + adv idx))
            (idx + 1) (oks2 ++ (j, Except.error e) :: (rest ++ [(idx, f b)])) with ⟨tr, outs, err⟩
        rw [hrl] at hrec
        simp only [Prod.mk.injEq] at hrec
        simp only
        rw [hrec.1, hrec.2, hov]

theorem procLoop_abort {B O : Type} (N : Nat) (f : B → Except String O) (g : B → O)
    (T adv : Nat → Nat) (bad : B) (post : List B) (e : String)
    (hbad : f bad = Except.error e) :
    ∀ (pre : List B) (c idx : Nat) (q : List (Nat × Except String O)),
      (∀ b ∈ pre, f b = Except.ok (g b)) →
      (∀ x ∈ q, ∃ o, x.2 = Except.ok o) →
      (procLoop N f T adv (pre ++ bad :: post) c idx q).2 =
        (okVals q ++ pre.map g, some e) := by
  intro pre
  induction pre with
  | nil =>
      intro c idx q _hpre hq
      have hsplit := drainReady_with_error T
        (if (q ++ [(idx, f bad)]).length == 2 * N
         then waitHead T (c + adv idx) (q ++ [(idx, f bad)]) else (c + adv idx))
        q idx e [] hq
      rw [show q ++ (idx, Except.error e) :: [] = q ++ [(idx, f bad)] by rw [hbad]]
        at hsplit
      rcases hsplit with h | ⟨outs1, oks2, hdr, hok2, hov⟩
      · have hgoal : procLoop N f T adv (([] : List B) ++ bad :: post) c idx q =
            ([(q ++ [(idx, f bad)]).length], okVals q, some e) := by
          simp only [List.nil_append, procLoop, h]
        rw [hgoal]
        simp
      · have hpend := procLoop_pending_error N f T adv idx e post
          (if (q ++ [(idx, f bad)]).length == 2 * N
           then waitHead T (c + adv idx) (q ++ [(idx, f bad)]) else (c + adv idx))
          (idx + 1) oks2 [] hok2
        have hgoal : procLoop N f T adv (([] : List B) ++ bad :: post) c idx q =
            ((q ++ [(idx, f bad)]).length ::
              (procLoop N f T adv post
                (if (q ++ [(idx, f bad)]).length == 2 * N
                 then waitHead T (c + adv idx) (q ++ [(idx, f bad)]) else (c + adv idx))
                (idx + 1) (oks2 ++ (idx, Except.error e) :: [])).1,
             outs1 ++ (procLoop N f T adv post
                (if (q ++ [(idx, f bad)]).length == 2 * N
                 then waitHead T (c + adv idx) (q ++ [(idx, f bad)]) else (c + adv idx))
                (idx + 1) (oks2 ++ (idx, Except.error e) :: [])).2.1,
             (procLoop N f T adv post
                (if (q ++ [(idx, f bad)]).length == 2 * N
                 then waitHead T (c + adv idx) (q ++ [(idx, f bad)]) else (c + adv idx))
                (idx + 1) (oks2 ++ (idx, Except.error e) :: [])).2.2) := by
          simp only [List.nil_append, procLoop, hdr]
        rw [hgoal]
        rcases hrl : procLoop N f T adv post
            (if (q ++ [(idx, f bad)]).length == 2 * N
             then waitHead T (c + adv idx) (q ++ [(idx, f bad)]) else (c + adv idx))
            (idx + 1) (oks2 ++ (idx, Except.error e) :: []) with ⟨tr, outs, err⟩
        rw [hrl] at hpend
        simp only [Prod.mk.injEq] at hpend
        simp only
        rw [hpend.1, hpend.2, hov]
        simp
  | cons p pre ih =>
      intro c idx q hpre hq
      have hp : f p = Except.ok (g p) := hpre p (List.mem_cons_self _ _)
      have hpre' : ∀ b ∈ pre, f b = Except.ok (g b) :=
        fun b hb => hpre b (List.mem_cons_of_mem _ hb)
      have hq1 : ∀ x ∈ q ++ [(idx, f p)], ∃ o, x.2 = Except.ok o := by
        intro x hx
        rcases List.mem_append.mp hx with h | h
        · exact hq x h
        · simp only [List.mem_singleton] at h
          subst h
          exact ⟨g p, by simp [hp]⟩
      obtain ⟨herr, houts, hok2, _hlen2⟩ := drainReady_all_ok T
        (if (q ++ [(idx, f p)]).length == 2 * N
         then waitHead T (c + adv idx) (q ++ [(idx, f p)]) else (c + adv idx))
        (q ++ [(idx, f p)]) hq1
      rcases hdr : drainReady T
          (if (q ++ [(idx, f p)]).length == 2 * N
           then waitHead T (c + adv idx) (q ++ [(idx, f p)]) else (c + adv idx))
          (q ++ [(idx, f p)]) with ⟨outs1, err, q2⟩
      rw [hdr] at herr houts hok2
      simp only at herr houts hok2
      subst herr
      have hrec := ih
        (if (q ++ [(idx, f p)]).length == 2 * N
         then waitHead T (c + adv idx) (q ++ [(idx, f p)]) else (c + adv idx))
        (idx + 1) q2 hpre' hok2
      have hgoal : procLoop N f T adv ((p :: pre) ++ bad :: post) c idx q =
          ((q ++ [(idx, f p)]).length ::
            (procLoop N f T adv (pre ++ bad :: post)
              (if (q ++ [(idx, f p)]).length == 2 * N
               then waitHead T (c + adv idx) (q ++ [(idx, f p)]) else (c + adv idx))
              (idx + 1) q2).1,
           outs1 ++ (procLoop N f T adv (pre ++ bad :: post)
              (if (q ++ [(idx, f p)]).length == 2 * N
               then waitHead T (c + adv idx) (q ++ [(idx, f p)]) else (c + adv idx))
              (idx + 1) q2).2.1,
           (procLoop N f T adv (pre ++ bad :: post)
              (if (q ++ [(idx, f p)]).length == 2 * N
               then waitHead T (c + adv idx) (q ++ [(idx, f p)]) else (c + adv idx))
              (idx + 1) q2).2.2) := by
        simp only [List.cons_append, procLoop, hdr]
        rfl
      rw [hgoal]
      rcases hrl : procLoop N f T adv (pre ++ bad :: post)
          (if (q ++ [(idx, f p)]).length == 2 * N
           then waitHead T (c + adv idx) (q ++ [(idx, f p)]) else (c + adv idx))
          (idx + 1) q2 with ⟨tr, outs, err⟩
      rw [hrl] at hrec
      simp only [Prod.mk.injEq] at hrec
      simp only
      rw [hrec.1, hrec.2]
      have hq1vals : okVals (q ++ [(idx, f p)]) = okVals q ++ [g p] := by
        simp [okVals_append, okVals, hp, Except.toOption]
      rw [← List.append_assoc, ← houts, hq1vals]
      simp

/-- C6: an exception raised while a worker processes a batch is caught and
re-raised as a new error whose message names the worker and, when the batch
metadata carries a truthy corpus name, that name; retrieving that batch's
result aborts the whole run, the consumer having received exactly the batches
submitted before it — no batch is retried or skipped. -/
theorem C6_worker_failure {TU O : Type}
    (doProcess : (List TU × BatchMeta) → Except String O) (workerName : String)
    (g : (List TU × BatchMeta) → O) (N : Nat) (T adv : Nat → Nat)
    (pre post : List (List TU × BatchMeta)) (bad : List TU × BatchMeta) (e0 : String)
    (hpre : ∀ b ∈ pre, doProcess b = Except.ok (g b))
    (hbad : doProcess bad = Except.error e0) :
    process_batch_on_worker doProcess workerName bad =
      Except.error (workerErrorMessage (get_corpus_name bad) workerName) ∧
    (∃ s1 s2, workerErrorMessage (get_corpus_name bad) workerName =
      s1 ++ workerName ++ s2) ∧
    (∀ n, get_corpus_name bad = some n →
      ∃ l r, (workerErrorMessage (get_corpus_name bad) workerName).data =
        l ++ n.data ++ r) ∧
    (processorProcessParallel N (process_batch_on_worker doProcess workerName) T adv
        (pre ++ bad :: post)).2 =
      (pre.map g, some (workerErrorMessage (get_corpus_name bad) workerName)) := by
  have hwrap : process_batch_on_worker doProcess workerName bad =
      Except.error (workerErrorMessage (get_corpus_name bad) workerName) := by
    simp [process_batch_on_worker, hbad]
  refine ⟨hwrap, ?_, ?_, ?_⟩
  · exact ⟨"An exception occured " ++
      (match get_corpus_name bad with
       | some n => if n == "" then "" else "when processing file \x27" ++ n ++ "\x27 "
       | none => "") ++ "in worker process ", " (see above)", rfl⟩
  · intro n hn
    simp only [workerErrorMessage, hn]
    by_cases hne : n == ""
    · have hn' : n = "" := by simpa using hne
      subst hn'
      exact ⟨("An exception occured " ++ "in worker process " ++ workerName
        ++ " (see above)").data, [], by simp⟩
    · rw [if_neg hne]
      refine ⟨"An exception occured ".data ++ "when processing file \x27".data,
        "\x27 ".data ++ "in worker process ".data ++ workerName.data
          ++ " (see above)".data, ?_⟩
      simp only [String.data_append, List.append_assoc]
  · have hpre' : ∀ b ∈ pre, process_batch_on_worker doProcess workerName b =
        Except.ok (g b) := by
      intro b hb
      simp [process_batch_on_worker, hpre b hb]
    have h := procLoop_abort N (process_batch_on_worker doProcess workerName) g T adv
      bad post (workerErrorMessage (get_corpus_name bad) workerName) hwrap pre 0 0 []
      hpre' (by simp)
    simpa [processorProcessParallel, okVals] using h

/-- Witness for C6: one worker; one successful batch, then a failing batch
carrying corpus name `corp`, then one more batch. -/
theorem C6_worker_failure_witness :
    process_batch_on_worker
        (fun b : List Nat × BatchMeta =>
          match b.2.base_name with
          | some _ => Except.error "boom"
          | none => Except.ok 0)
        "wk" ([], { base_name := some "corp" }) =
      Except.error (workerErrorMessage (some "corp") "wk") ∧
    (∃ s1 s2, workerErrorMessage (some "corp") "wk" = s1 ++ "wk" ++ s2) ∧
    (∃ l r, (workerErrorMessage (some "corp") "wk").data = l ++ "corp".data ++ r) ∧
    (processorProcessParallel 1
        (process_batch_on_worker
          (fun b : List Nat × BatchMeta =>
            match b.2.base_name with
            | some _ => Except.error "boom"
            | none => Except.ok 0)
          "wk") (fun _ => 0) (fun _ => 0)
        [([], ({} : BatchMeta)), ([], { base_name := some "corp" }), ([], {})]).2 =
      ([0], some (workerErrorMessage (some "corp") "wk")) := by
  have h := C6_worker_failure
    (fun b : List Nat × BatchMeta =>
      match b.2.base_name with
      | some _ => Except.error "boom"
      | none => Except.ok 0)
    "wk" (fun _ => 0) 1 (fun _ => 0) (fun _ => 0)
    [([], ({} : BatchMeta))] [([], ({} : BatchMeta))]
    ([], { base_name := some "corp" }) "boom"
    (by intro b hb; simp only [List.mem_singleton] at hb; subst hb; rfl)
    rfl
  obtain ⟨h1, h2, h3, h4⟩ := h
  exact ⟨h1, h2, h3 "corp" rfl, h4⟩

/-! ### Shared state and the mapping-label branch (C8) -/

/-- C8 counterexample: on the demo shared state, a mapping label makes
`SharedState.get` return `None` (no shared state), while the default shared
state for that configuration is a non-`None` per-index resource mapping — so
the call does not return the default shared state. -/
theorem C8_dict_label_counterexample :
    sharedStateGet demoRegistryS demoConfigS ProcessType.TRAINING none 0 demoSharedInit
        (Label.ldict []) = Except.ok (none, demoSharedInit) ∧
    sharedStateGet demoRegistryS demoConfigS ProcessType.TRAINING none 0 demoSharedInit
        Label.lnone =
      Except.ok (some [(0, [("al1", 0), ("al2", 0)])], demoSharedInit) ∧
    (none : Option (List (Nat × SharedRes))) ≠ some [(0, [("al1", 0), ("al2", 0)])] :=
  ⟨rfl, rfl, by simp⟩

/-- C8 (amended): calling the shared-state cache's `get` with an override label
that is itself a mapping does not raise an error; it returns `None` — no shared
state at all, bypassing the cache — rather than the default shared state. -/
theorem C8_dict_label_returns_none {TU : Type} (registry : List (String × OperatorClass TU))
    (config : Dict) (process_type : ProcessType) (preprocess_exit_step : Option Nat)
    (num_workers : Nat) (s : SharedStateData) (d : Dict) :
    sharedStateGet registry config process_type preprocess_exit_step num_workers s
      (Label.ldict d) = Except.ok (none, s) := rfl

/-! ### Shared-resource cache identity (C4) -/

theorem assocLookup_append_some {α : Type} (k : String) (l tail : List (String × α))
    (v : α) (h : assocLookup k l = some v) : assocLookup k (l ++ tail) = some v := by
  induction l with
  | nil => simp [assocLookup] at h
  | cons e rest ih =>
      obtain ⟨k', v'⟩ := e
      by_cases hk : k' = k <;> simp_all [assocLookup]

theorem assocLookup_append_none {α : Type} (k : String) (l tail : List (String × α))
    (h : assocLookup k l = none) : assocLookup k (l ++ tail) = assocLookup k tail := by
  induction l with
  | nil => rfl
  | cons e rest ih =>
      obtain ⟨k', v'⟩ := e
      by_cases hk : k' = k <;> simp_all [assocLookup]

theorem assocLookup_setAssoc_self {α : Type} (k : String) (v : α)
    (l : List (String × α)) : assocLookup k (setAssoc k v l) = some v := by
  induction l with
  | nil => simp [assocLookup, setAssoc]
  | cons e rest ih =>
      obtain ⟨k', v'⟩ := e
      by_cases hk : k' = k <;> simp [assocLookup, setAssoc, hk, ih]

theorem assocLookup_setAssoc_other {α : Type} (k k' : String) (v : α)
    (l : List (String × α)) (h : k' ≠ k) :
    assocLookup k (setAssoc k' v l) = assocLookup k l := by
  induction l with
  | nil => simp [assocLookup, setAssoc, h]
  | cons e rest ih =>
      obtain ⟨k0, v0⟩ := e
      by_cases hk0 : k0 = k'
      · subst hk0
        simp [assocLookup, setAssoc, h]
      · by_cases hkk : k0 = k
        · subst hkk
          simp [assocLookup, setAssoc, hk0]
        · simp [assocLookup, setAssoc, hk0, hkk, ih]

theorem buildEntries_existing_mono (bs : List (String × String × String)) :
    ∀ (nid : Nat) (e : List (String × Nat)) (acc : SharedRes) (k : String) (v : Nat),
      assocLookup k e = some v → assocLookup k (buildEntries nid e acc bs).1 = some v := by
  induction bs with
  | nil => intro _ _ _ _ _ h; exact h
  | cons b rest ih =>
      intro nid e acc k v h
      obtain ⟨name, cn, ar⟩ := b
      simp only [buildEntries]
      cases hl : assocLookup (shared_builders_key cn ar) e with
      | some inst => exact ih _ _ _ _ _ h
      | none => exact ih _ _ _ _ _ (assocLookup_append_some _ _ _ _ h)

theorem buildEntries_acc_stable (bs : List (String × String × String)) :
    ∀ (nid : Nat) (e : List (String × Nat)) (acc : SharedRes) (n : String),
      (∀ x ∈ bs, x.1 ≠ n) →
      assocLookup n (buildEntries nid e acc bs).2.1 = assocLookup n acc := by
  induction bs with
  | nil => intro _ _ _ _ _; rfl
  | cons b rest ih =>
      intro nid e acc n h
      obtain ⟨name, cn, ar⟩ := b
      have hname : name ≠ n := h (name, cn, ar) (List.mem_cons_self _ _)
      have htail : ∀ x ∈ rest, x.1 ≠ n := fun x hx => h x (List.mem_cons_of_mem _ hx)
      simp only [buildEntries]
      cases hl : assocLookup (shared_builders_key cn ar) e with
      | some inst =>
          rw [ih _ _ _ _ htail]
          exact assocLookup_setAssoc_other n name inst acc hname
      | none =>
          rw [ih _ _ _ _ htail]
          exact assocLookup_setAssoc_other n name nid acc hname

theorem buildEntries_binding (bs : List (String × String × String)) :
    ∀ (nid : Nat) (e : List (String × Nat)) (acc : SharedRes) (n c a : String),
      (n, c, a) ∈ bs → (bs.map (fun x => x.1)).Nodup →
      ∃ inst, assocLookup n (buildEntries nid e acc bs).2.1 = some inst ∧
        assocLookup (shared_builders_key c a) (buildEntries nid e acc bs).1 = some inst := by
  induction bs with
  | nil => intro _ _ _ _ _ _ h _; simp at h
  | cons b rest ih =>
      intro nid e acc n c a hmem hnd
      obtain ⟨name, cn, ar⟩ := b
      have hndc := hnd
      simp only [List.map_cons, List.nodup_cons] at hndc
      have hnd' : (rest.map (fun x => x.1)).Nodup := hndc.2
      rcases List.mem_cons.mp hmem with heq | hmem'
      · simp only [Prod.mk.injEq] at heq
        obtain ⟨hn, hc, ha⟩ := heq
        subst hn; subst hc; subst ha
        have hrest : ∀ x ∈ rest, x.1 ≠ n := by
          intro x hx hcontra
          exact hndc.1 (hcontra ▸ List.mem_map_of_mem _ hx)
        simp only [buildEntries]
        cases hl : assocLookup (shared_builders_key c a) e with
        | some inst =>
            refine ⟨inst, ?_, ?_⟩
            · rw [buildEntries_acc_stable rest _ _ _ _ hrest]
              exact assocLookup_setAssoc_self _ _ _
            · exact buildEntries_existing_mono rest _ _ _ _ _ hl
        | none =>
            refine ⟨nid, ?_, ?_⟩
            · rw [buildEntries_acc_stable rest _ _ _ _ hrest]
              exact assocLookup_setAssoc_self _ _ _
            · refine buildEntries_existing_mono rest _ _ _ _ _ ?_
              rw [assocLookup_append_none _ _ _ hl]
              simp [assocLookup]
      · simp only [buildEntries]
        cases hl : assocLookup (shared_builders_key cn ar) e with
        | some inst => exact ih _ _ _ n c a hmem' hnd'
        | none => exact ih _ _ _ n c a hmem' hnd'

theorem buildAllShared_mem (input : List (Nat × List (String × String × String))) :
    ∀ (as0 : List (Nat × List (String × Nat))) (nid i : Nat)
      (bs : List (String × String × String)),
      (i, bs) ∈ input →
      ∃ e0 n0, (i, (buildEntries n0 e0 [] bs).2.1) ∈ (buildAllShared as0 nid input).2.1 := by
  induction input with
  | nil => intro _ _ _ _ h; simp at h
  | cons x rest ih =>
      intro as0 nid i bs hmem
      obtain ⟨j, bsj⟩ := x
      rcases List.mem_cons.mp hmem with heq | hmem'
      · simp only [Prod.mk.injEq] at heq
        obtain ⟨hj, hbs⟩ := heq
        subst hj; subst hbs
        refine ⟨(assocLookupN i as0).getD [], nid, ?_⟩
        rcases hbe : buildEntries nid ((assocLookupN i as0).getD []) [] bs
          with ⟨e', m, nid2⟩
        have hm : m = (buildEntries nid ((assocLookupN i as0).getD []) [] bs).2.1 := by
          rw [hbe]
        simp only [buildAllShared, hbe]
        rcases hrec : buildAllShared (setAssocN i e' as0) nid2 rest with ⟨as2, ms, nid3⟩
        simp only
        exact List.mem_cons_self _ _
      · rcases hbe : buildEntries nid ((assocLookupN j as0).getD []) [] bsj
          with ⟨e', m, nid2⟩
        obtain ⟨e0, n0, hm⟩ := ih (setAssocN j e' as0) nid2 i bs hmem'
        refine ⟨e0, n0, ?_⟩
        simp only [buildAllShared, hbe]
        rcases hrec : buildAllShared (setAssocN j e' as0) nid2 rest with ⟨as2, ms, nid3⟩
        rw [hrec] at hm
        simp only at hm ⊢
        exact List.mem_cons_of_mem _ hm

theorem sharedStateGet_cached {TU : Type} (registry : List (String × OperatorClass TU))
    (config : Dict) (pt : ProcessType) (exit : Option Nat) (nw : Nat)
    (s : SharedStateData) (label : Label) (cached : List (Nat × SharedRes))
    (hnd : ∀ d, label ≠ Label.ldict d)
    (hc : assocLookup (labelRepr label) s.cached_state = some cached) :
    sharedStateGet registry config pt exit nw s label = Except.ok (some cached, s) := by
  cases label with
  | ldict d => exact absurd rfl (hnd d)
  | lnone => simp [sharedStateGet, hc]
  | lset ls => simp [sharedStateGet, hc]

theorem sharedStateGet_miss_cases {TU : Type} (registry : List (String × OperatorClass TU))
    (config : Dict) (pt : ProcessType) (exit : Option Nat) (nw : Nat)
    (s : SharedStateData) (label : Label) (r : Option (List (Nat × SharedRes)))
    (s' : SharedStateData)
    (hnd : ∀ d, label ≠ Label.ldict d)
    (hc : assocLookup (labelRepr label) s.cached_state = none)
    (hget : sharedStateGet registry config pt exit nw s label = Except.ok (r, s')) :
    ∃ pcfg, getOpListD config "preprocess" = Except.ok pcfg ∧
      ((pcfg.isEmpty = true ∧ r = some [] ∧ s' = s) ∨
       (∃ (s1 : SharedStateData) (infos : List (OperatorClass TU × Dict × String × Nat)),
         operator_info_gen registry pt (labelList label) exit true pcfg 0 =
           Except.ok infos ∧
         r = some (buildAllShared s1.all_state s1.nextId
           (collectBuilders pt infos)).2.1 ∧
         s'.cached_state = setAssoc (labelRepr label)
           (buildAllShared s1.all_state s1.nextId (collectBuilders pt infos)).2.1
           s1.cached_state)) := by
  have hbody : ∀ (hne : ∀ d, label ≠ Label.ldict d),
      sharedStateGet registry config pt exit nw s label = Except.ok (r, s') →
      assocLookup (labelRepr label) s.cached_state = none →
      ∃ pcfg, getOpListD config "preprocess" = Except.ok pcfg ∧
      ((pcfg.isEmpty = true ∧ r = some [] ∧ s' = s) ∨
       (∃ (s1 : SharedStateData) (infos : List (OperatorClass TU × Dict × String × Nat)),
         operator_info_gen registry pt (labelList label) exit true pcfg 0 =
           Except.ok infos ∧
         r = some (buildAllShared s1.all_state s1.nextId
           (collectBuilders pt infos)).2.1 ∧
         s'.cached_state = setAssoc (labelRepr label)
           (buildAllShared s1.all_state s1.nextId (collectBuilders pt infos)).2.1
           s1.cached_state)) := by
    clear hget hc
    intro hne hget hc
    have hunf : sharedStateGet registry config pt exit nw s label =
        (match assocLookup (labelRepr label) s.cached_state with
         | some cached => Except.ok (some cached, s)
         | none => do
            let preprocess_config ← getOpListD config "preprocess"
            if preprocess_config.isEmpty then
              Except.ok (some [], s)
            else do
              let s1 ← managerStep registry pt label exit preprocess_config nw s
              let infos ← operator_info_gen registry pt (labelList label)
                exit true preprocess_config 0
              let res :=
                buildAllShared s1.all_state s1.nextId (collectBuilders pt infos)
              Except.ok (some res.2.1,
                { s1 with
                  all_state := res.1
                  nextId := res.2.2
                  cached_state := setAssoc (labelRepr label) res.2.1
                    s1.cached_state })) := by
      cases label with
      | ldict d => exact absurd rfl (hne d)
      | lnone => rfl
      | lset ls => rfl
    rw [hunf, hc] at hget
    cases hpc : getOpListD config "preprocess" with
    | error e => rw [hpc, exceptBindErr] at hget; exact absurd hget (by simp)
    | ok pcfg =>
        rw [hpc, exceptBindOk] at hget
        refine ⟨pcfg, rfl, ?_⟩
        by_cases hemp : pcfg.isEmpty
        · rw [if_pos hemp] at hget
          simp only [Except.ok.injEq, Prod.mk.injEq] at hget
          exact Or.inl ⟨hemp, hget.1.symm, hget.2.symm⟩
        · rw [if_neg hemp] at hget
          cases hms : managerStep registry pt label exit pcfg nw s with
          | error e => rw [hms, exceptBindErr] at hget; exact absurd hget (by simp)
          | ok s1 =>
              rw [hms, exceptBindOk] at hget
              cases hgen : operator_info_gen registry pt (labelList label)
                  exit true pcfg 0 with
              | error e => rw [hgen, exceptBindErr] at hget; exact absurd hget (by simp)
              | ok infos =>
                  rw [hgen, exceptBindOk] at hget
                  simp only [Except.ok.injEq, Prod.mk.injEq] at hget
                  refine Or.inr ⟨s1, infos, rfl, hget.1.symm, ?_⟩
                  rw [← hget.2]
  exact hbody hnd hget hc

/-- C4: for every label, a repeated call to the shared-state cache's `get` with
the same label returns the identical result without rebuilding (the state is
unchanged, so instance identities are preserved); and within one freshly built
result, two builder names at the same operator index with the same resource
class and constructor arguments are bound to the identical instance. -/
theorem C4_shared_cache_identity {TU : Type} (registry : List (String × OperatorClass TU))
    (config : Dict) (process_type : ProcessType) (preprocess_exit_step : Option Nat)
    (num_workers : Nat) :
    (∀ (s : SharedStateData) (label : Label) (r : Option (List (Nat × SharedRes)))
       (s' : SharedStateData),
      sharedStateGet registry config process_type preprocess_exit_step num_workers
          s label = Except.ok (r, s') →
      sharedStateGet registry config process_type preprocess_exit_step num_workers
          s' label = Except.ok (r, s')) ∧
    (∀ (s : SharedStateData) (label : Label) (r : List (Nat × SharedRes))
       (s' : SharedStateData) (pcfg : List Dict)
       (infos : List (OperatorClass TU × Dict × String × Nat))
       (i : Nat) (bs : List (String × String × String)) (n1 n2 c a : String),
      sharedStateGet registry config process_type preprocess_exit_step num_workers
          s label = Except.ok (some r, s') →
      assocLookup (labelRepr label) s.cached_state = none →
      getOpListD config "preprocess" = Except.ok pcfg →
      operator_info_gen registry process_type (labelList label) preprocess_exit_step
        true pcfg 0 = Except.ok infos →
      (i, bs) ∈ collectBuilders process_type infos →
      (bs.map (fun x => x.1)).Nodup →
      (n1, c, a) ∈ bs → (n2, c, a) ∈ bs →
      ∃ m inst, (i, m) ∈ r ∧ assocLookup n1 m = some inst ∧
        assocLookup n2 m = some inst) := by
  constructor
  · intro s label r s' hget
    by_cases hdict : ∃ d, label = Label.ldict d
    · obtain ⟨d, hd⟩ := hdict
      subst hd
      have h1 : sharedStateGet registry config process_type preprocess_exit_step
          num_workers s (Label.ldict d) = Except.ok (none, s) := rfl
      rw [h1] at hget
      simp only [Except.ok.injEq, Prod.mk.injEq] at hget
      obtain ⟨hr, hs⟩ := hget
      subst hr; subst hs
      exact h1
    · have hnd : ∀ d, label ≠ Label.ldict d := fun d hd => hdict ⟨d, hd⟩
      cases hc : assocLookup (labelRepr label) s.cached_state with
      | some cached =>
          have h1 := sharedStateGet_cached registry config process_type
            preprocess_exit_step num_workers s label cached hnd hc
          rw [h1] at hget
          simp only [Except.ok.injEq, Prod.mk.injEq] at hget
          obtain ⟨hr, hs⟩ := hget
          subst hr; subst hs
          exact h1
      | none =>
          obtain ⟨pcfg, hpc, hcases⟩ := sharedStateGet_miss_cases registry config
            process_type preprocess_exit_step num_workers s label r s' hnd hc hget
          rcases hcases with ⟨_hemp, _hr, hs⟩ | ⟨s1, infos, _hgen, hr, hcache⟩
          · subst hs
            exact hget
          · subst hr
            exact sharedStateGet_cached registry config process_type
              preprocess_exit_step num_workers s' label _ hnd
              (by rw [hcache]; exact assocLookup_setAssoc_self _ _ _)
  · intro s label r s' pcfg infos i bs n1 n2 c a hget hcmiss hpcfg hinfos hcoll hndup
      hm1 hm2
    have hnd : ∀ d, label ≠ Label.ldict d := by
      intro d hd
      subst hd
      have h1 : sharedStateGet registry config process_type preprocess_exit_step
          num_workers s (Label.ldict d) = Except.ok (none, s) := rfl
      rw [h1] at hget
      simp at hget
    obtain ⟨pcfg', hpc', hcases⟩ := sharedStateGet_miss_cases registry config
      process_type preprocess_exit_step num_workers s label (some r) s' hnd hcmiss hget
    rw [hpcfg] at hpc'
    have hpeq : pcfg = pcfg' := by
      simpa using hpc'
    subst hpeq
    rcases hcases with ⟨hemp, hr, _⟩ | ⟨s1, infos', hgen', hr, _⟩
    · have hpnil : pcfg = [] := List.isEmpty_iff.mp hemp
      subst hpnil
      have : infos = [] := by
        have h0 : operator_info_gen registry process_type (labelList label)
            preprocess_exit_step true ([] : List Dict) 0 =
            Except.ok ([] : List (OperatorClass TU × Dict × String × Nat)) := rfl
        rw [h0] at hinfos
        simpa using hinfos.symm
      subst this
      simp [collectBuilders] at hcoll
    · rw [hinfos] at hgen'
      have hieq : infos = infos' := by
        simpa using hgen'
      subst hieq
      have hreq : r = (buildAllShared s1.all_state s1.nextId
          (collectBuilders process_type infos)).2.1 := by
        simpa using hr
      obtain ⟨e0, n0, hmem⟩ := buildAllShared_mem (collectBuilders process_type infos)
        s1.all_state s1.nextId i bs hcoll
      obtain ⟨inst1, ha1, hk1⟩ := buildEntries_binding bs n0 e0 [] n1 c a hm1 hndup
      obtain ⟨inst2, ha2, hk2⟩ := buildEntries_binding bs n0 e0 [] n2 c a hm2 hndup
      have hinsteq : inst1 = inst2 := by
        rw [hk1] at hk2
        simpa using hk2
      refine ⟨(buildEntries n0 e0 [] bs).2.1, inst1, ?_, ha1, ?_⟩
      · rw [hreq]
        exact hmem
      · rw [hinsteq]
        exact ha2

/-- Witness for C4: on the demo shared configuration, re-requesting the cached
default label returns the identical result, and the two builder names sharing
one resource class and argument tuple are bound to the identical instance. -/
theorem C4_shared_cache_identity_witness :
    (sharedStateGet demoRegistryS demoConfigS ProcessType.TRAINING none 0
        demoSharedInit Label.lnone =
      Except.ok (some [(0, [("al1", 0), ("al2", 0)])], demoSharedInit)) ∧
    (∃ m inst, (0, m) ∈ [(0, [("al1", 0), ("al2", 0)])] ∧
      assocLookup "al1" m = some inst ∧ assocLookup "al2" m = some inst) := by
  constructor
  · exact (C4_shared_cache_identity demoRegistryS demoConfigS ProcessType.TRAINING
      none 0).1 {} Label.lnone (some [(0, [("al1", 0), ("al2", 0)])]) demoSharedInit rfl
  · exact (C4_shared_cache_identity demoRegistryS demoConfigS ProcessType.TRAINING
      none 0).2 {} Label.lnone [(0, [("al1", 0), ("al2", 0)])] demoSharedInit
      [[("op", Value.vStr "als")]] [(demoSharedCls, [], "als", 0)]
      0 [("al1", "Aligner", "m1"), ("al2", "Aligner", "m1")] "al1" "al2" "Aligner" "m1"
      rfl rfl rfl rfl (List.mem_cons_self _ _) (by decide) (by decide) (by decide)

/-! ### Default operator names (C9) -/

theorem digitChar_spec (d : Nat) (h : d < 10) :
    Nat.digitChar d ≠ '_' ∧ charDigit (Nat.digitChar d) = d := by
  interval_cases d <;> exact ⟨by decide, by decide⟩

theorem decDigitsAux_no_sep (fuel : Nat) :
    ∀ (n : Nat) (c : Char), c ∈ decDigitsAux fuel n → c ≠ '_' := by
  induction fuel with
  | zero =>
      intro n c hc
      cases n <;> simp [decDigitsAux] at hc
  | succ fuel ih =>
      intro n c hc
      cases n with
      | zero => simp [decDigitsAux] at hc
      | succ m =>
          simp only [decDigitsAux, List.mem_append, List.mem_singleton] at hc
          rcases hc with hc | hc
          · exact ih _ _ hc
          · subst hc
            exact (digitChar_spec _ (Nat.mod_lt _ (by omega))).1

theorem parseDec_append (l : List Char) (c : Char) :
    parseDec (l ++ [c]) = parseDec l * 10 + charDigit c := by
  simp [parseDec, List.foldl_append]

theorem parseDec_decDigitsAux (fuel : Nat) :
    ∀ n : Nat, n ≤ fuel → parseDec (decDigitsAux fuel n) = n := by
  induction fuel with
  | zero =>
      intro n hn
      have : n = 0 := Nat.le_zero.mp hn
      subst this
      rfl
  | succ fuel ih =>
      intro n hn
      cases n with
      | zero => rfl
      | succ m =>
          have hdiv : (m + 1) / 10 ≤ fuel := by
            have h1 : (m + 1) / 10 < m + 1 := Nat.div_lt_self (by omega) (by omega)
            omega
          have hr := (digitChar_spec ((m + 1) % 10) (Nat.mod_lt _ (by omega))).2
          simp only [decDigitsAux, parseDec_append, ih _ hdiv, hr]
          omega

theorem decRender_no_sep (n : Nat) (c : Char) (hc : c ∈ (decRender n).data) :
    c ≠ '_' := by
  cases n with
  | zero =>
      simp only [decRender] at hc
      simp at hc
      subst hc
      decide
  | succ m =>
      simp only [decRender, decDigits] at hc
      exact decDigitsAux_no_sep _ _ _ hc

theorem parseDec_decRender (n : Nat) : parseDec (decRender n).data = n := by
  cases n with
  | zero => decide
  | succ m => exact parseDec_decDigitsAux (m + 1) (m + 1) (Nat.le_refl _)

theorem takeWhile_append_stop (p : Char → Bool) (xs : List Char) (y : Char)
    (ys : List Char) (hxs : ∀ x ∈ xs, p x = true) (hy : p y = false) :
    (xs ++ y :: ys).takeWhile p = xs := by
  induction xs with
  | nil => simp [List.takeWhile_cons, hy]
  | cons x rest ih =>
      have hx : p x = true := hxs x (List.mem_cons_self _ _)
      simp [List.takeWhile_cons, hx,
        ih (fun x' hx' => hxs x' (List.mem_cons_of_mem _ hx'))]

theorem afterLastSep_append (a u : List Char) (hu : ∀ c ∈ u, c ≠ '_') :
    afterLastSep (a ++ '_' :: u) = u := by
  have hrev : (a ++ '_' :: u).reverse = u.reverse ++ '_' :: a.reverse := by
    simp
  have hall : ∀ c ∈ u.reverse, (fun c => !(c == '_')) c = true := by
    intro c hc
    have := hu c (List.mem_reverse.mp hc)
    simpa using this
  simp only [afterLastSep, hrev]
  rw [takeWhile_append_stop _ _ _ _ hall (by decide)]
  exact List.reverse_reverse u

theorem decodeIndex_default (t : String) (i : Nat) :
    decodeIndex (t ++ "_" ++ decRender i) = i := by
  have hdata : (t ++ "_" ++ decRender i).data = t.data ++ '_' :: (decRender i).data := by
    simp [String.data_append]
  simp only [decodeIndex, hdata]
  rw [afterLastSep_append _ _ (fun c hc => decRender_no_sep i c hc)]
  exact parseDec_decRender i

theorem default_name_inj (t1 t2 : String) (i1 i2 : Nat)
    (h : t1 ++ "_" ++ decRender i1 = t2 ++ "_" ++ decRender i2) : i1 = i2 := by
  have h1 := decodeIndex_default t1 i1
  have h2 := decodeIndex_default t2 i2
  rw [h] at h1
  rw [h2] at h1
  exact h1.symm

theorem default_names_nodup {TU : Type} (ops : List (BuiltOperator TU))
    (hdef : ∀ op ∈ ops, op.name = op.opType ++ "_" ++ decRender op.index)
    (hidx : (ops.map (fun op => op.index)).Pairwise (· < ·)) :
    (ops.map (fun op => op.name)).Nodup := by
  induction ops with
  | nil => simp
  | cons op rest ih =>
      simp only [List.map_cons, List.nodup_cons]
      simp only [List.map_cons, List.pairwise_cons] at hidx
      constructor
      · intro hmem
        obtain ⟨op', hop', hname⟩ := List.mem_map.mp hmem
        have hlt : op.index < op'.index := hidx.1 _ (List.mem_map_of_mem _ hop')
        have heq : op'.name = op.name := hname
        rw [hdef op (List.mem_cons_self _ _),
          hdef op' (List.mem_cons_of_mem _ hop')] at heq
        have := default_name_inj _ _ _ _ heq
        omega
      · exact ih (fun op' h' => hdef op' (List.mem_cons_of_mem _ h')) hidx.2

theorem operator_info_gen_indices {TU : Type} (registry : List (String × OperatorClass TU))
    (pt : ProcessType) (label : List String) (exit : Option Nat) (ign : Bool) :
    ∀ (entries : List Dict) (i0 : Nat)
      (infos : List (OperatorClass TU × Dict × String × Nat)),
      operator_info_gen registry pt label exit ign entries i0 = Except.ok infos →
      (infos.map (fun e => e.2.2.2)).Pairwise (· < ·) ∧
      ∀ e ∈ infos, i0 ≤ e.2.2.2 := by
  intro entries
  induction entries with
  | nil =>
      intro i0 infos h
      simp only [operator_info_gen, Except.ok.injEq] at h
      subst h
      exact ⟨by simp, by simp⟩
  | cons c rest ih =>
      intro i0 infos h
      simp only [operator_info_gen] at h
      by_cases hexit : exitGt exit i0
      · rw [if_pos hexit] at h
        simp only [Except.ok.injEq] at h
        subst h
        exact ⟨by simp, by simp⟩
      · rw [if_neg hexit] at h
        cases hot : get_operator_type c with
        | error e => rw [hot, exceptBindErr] at h; exact absurd h (by simp)
        | ok opv =>
            rw [hot, exceptBindOk] at h
            cases hoc : get_operator_class registry opv with
            | error e => rw [hoc, exceptBindErr] at h; exact absurd h (by simp)
            | ok pr =>
                obtain ⟨ts, cls⟩ := pr
                rw [hoc, exceptBindOk] at h
                simp only at h
                by_cases happ : !(cls.is_applied_for pt)
                · rw [if_pos happ] at h
                  obtain ⟨h1, h2⟩ := ih (i0 + 1) infos h
                  exact ⟨h1, fun e he => by have := h2 e he; omega⟩
                · rw [if_neg happ] at h
                  cases hps : get_operator_params c ts label with
                  | error e => rw [hps, exceptBindErr] at h; exact absurd h (by simp)
                  | ok params =>
                      rw [hps, exceptBindOk] at h
                      by_cases hdis : ign && truthyOpt (lookupV "disabled" params)
                      · rw [if_pos hdis] at h
                        obtain ⟨h1, h2⟩ := ih (i0 + 1) infos h
                        exact ⟨h1, fun e he => by have := h2 e he; omega⟩
                      · rw [if_neg hdis] at h
                        cases hrest : operator_info_gen registry pt label exit ign
                            rest (i0 + 1) with
                        | error e =>
                            rw [hrest, exceptBindErr] at h
                            exact absurd h (by simp)
                        | ok tl =>
                            rw [hrest, exceptBindOk] at h
                            simp only [Except.ok.injEq] at h
                            subst h
                            obtain ⟨h1, h2⟩ := ih (i0 + 1) tl hrest
                            refine ⟨?_, ?_⟩
                            · simp only [List.map_cons, List.pairwise_cons]
                              refine ⟨?_, h1⟩
                              intro j hj
                              obtain ⟨e, he, hje⟩ := List.mem_map.mp hj
                              have := h2 e he
                              omega
                            · intro e he
                              rcases List.mem_cons.mp he with heq | hmem
                              · subst heq; simp
                              · have := h2 e hmem; omega

theorem lookupV_setKey_other (k k' : String) (v : Value) (d : Dict) (h : k' ≠ k) :
    lookupV k (setKey k' v d) = lookupV k d := by
  induction d with
  | nil => simp [lookupV, setKey, h]
  | cons e rest ih =>
      obtain ⟨k0, v0⟩ := e
      by_cases hk0 : k0 = k'
      · subst hk0
        simp [lookupV, setKey, h]
      · by_cases hkk : k0 = k
        · subst hkk
          simp [lookupV, setKey, hk0]
        · simp [lookupV, setKey, hk0, hkk, ih]

theorem add_lang_info_no_name (d cfg : Dict) (side : String) (d' : Dict)
    (h : add_lang_info d cfg side = Except.ok d')
    (hs : side ≠ "name") (hsl : (side ++ "_lang") ≠ "name")
    (hn : lookupV "name" d = none) : lookupV "name" d' = none := by
  simp only [add_lang_info] at h
  cases hlv : lookupV side cfg with
  | none => rw [hlv] at h; exact absurd h (by simp)
  | some langv =>
      rw [hlv] at h
      cases hsp : lookupV side d with
      | some v =>
          rw [hsp] at h
          cases v <;> simp only [Except.ok.injEq] at h <;> try exact absurd h (by simp)
          subst h
          rw [lookupV_setKey_other _ _ _ _ hs]
          exact hn
      | none =>
          rw [hsp] at h
          simp only [Except.ok.injEq] at h
          subst h
          rw [lookupV_setKey_other _ _ _ _ hsl]
          exact hn

theorem build_operator_spec {TU : Type} (opType : String) (cls : OperatorClass TU)
    (params g : Dict) (pt : ProcessType) (bs : BuildState) (i : Nat)
    (sh : Option SharedRes) (op : BuiltOperator TU) (bs' : BuildState)
    (hb : build_operator opType cls params g pt bs i sh = Except.ok (op, bs')) :
    op.index = i ∧ op.opType = opType ∧
    (lookupV "name" params = none → op.name = opType ++ "_" ++ decRender i) := by
  simp only [build_operator] at hb
  cases h1 : add_lang_info params g "source" with
  | error e => rw [h1, exceptBindErr] at hb; exact absurd hb (by simp)
  | ok p1 =>
      rw [h1, exceptBindOk] at hb
      cases h2 : add_lang_info p1 g "target" with
      | error e => rw [h2, exceptBindErr] at hb; exact absurd hb (by simp)
      | ok p2 =>
          rw [h2, exceptBindOk] at hb
          simp only [Except.ok.injEq, Prod.mk.injEq] at hb
          obtain ⟨hop, _⟩ := hb
          subst hop
          refine ⟨rfl, rfl, ?_⟩
          intro hn
          have hn1 : lookupV "name" p1 = none :=
            add_lang_info_no_name params g "source" p1 h1 (by decide) (by decide) hn
          have hn2 : lookupV "name" p2 = none :=
            add_lang_info_no_name p1 g "target" p2 h2 (by decide) (by decide) hn1
          simp only [hn2]

theorem add_ops_spec {TU : Type} (g : Dict) (pt : ProcessType)
    (ss : Option (List (Nat × SharedRes))) :
    ∀ (infos : List (OperatorClass TU × Dict × String × Nat))
      (ops : List (BuiltOperator TU)) (bs : BuildState)
      (ops' : List (BuiltOperator TU)) (bs' : BuildState),
      add_ops g pt ss infos ops bs = Except.ok (ops', bs') →
      ops'.map (fun op => op.index) =
        ops.map (fun op => op.index) ++ infos.map (fun e => e.2.2.2) ∧
      ∀ op ∈ ops', op ∈ ops ∨
        ∃ e ∈ infos, op.index = e.2.2.2 ∧ op.opType = e.2.2.1 ∧
          (lookupV "name" e.2.1 = none →
            op.name = op.opType ++ "_" ++ decRender op.index) := by
  intro infos
  induction infos with
  | nil =>
      intro ops bs ops' bs' h
      simp only [add_ops, Except.ok.injEq, Prod.mk.injEq] at h
      obtain ⟨h1, _⟩ := h
      subst h1
      exact ⟨by simp, fun op hop => Or.inl hop⟩
  | cons info rest ih =>
      intro ops bs ops' bs' h
      obtain ⟨cls, params, opType, i⟩ := info
      simp only [add_ops] at h
      cases hb : build_operator opType cls params g pt bs i (sharedFor ss i) with
      | error e => rw [hb, exceptBindErr] at h; exact absurd h (by simp)
      | ok r =>
          obtain ⟨op, bs2⟩ := r
          rw [hb, exceptBindOk] at h
          obtain ⟨hmap, hmem⟩ := ih (ops ++ [op]) bs2 ops' bs' h
          obtain ⟨hidx, htype, hname⟩ :=
            build_operator_spec opType cls params g pt bs i _ op bs2 hb
          constructor
          · rw [hmap]
            simp [hidx]
          · intro op' hop'
            rcases hmem op' hop' with hin | ⟨e, he, hrest⟩
            · rcases List.mem_append.mp hin with h1 | h1
              · exact Or.inl h1
              · simp only [List.mem_singleton] at h1
                subst h1
                refine Or.inr ⟨(cls, params, opType, i), List.mem_cons_self _ _,
                  hidx, htype, ?_⟩
                intro hn
                rw [hidx, htype]
                exact hname hn
            · exact Or.inr ⟨e, List.mem_cons_of_mem _ he, hrest⟩

/-- C9 counterexample: a configuration giving both operators the explicit name
`x` builds a pipeline whose operator names are not pairwise distinct, refuting
the claim as stated. -/
theorem C9_duplicate_names_counterexample :
    buildPipeline demoRegistry demoConfig9 ProcessType.TRAINING none [] none =
      Except.ok demoP9 ∧
    demoP9.ops.map (fun op => op.name) = ["x", "x"] ∧
    ¬(demoP9.ops.map (fun op => op.name)).Nodup :=
  ⟨rfl, rfl, by decide⟩

/-- C9 (amended): for a pipeline built for TRAINING or INFERENCE from a
configuration whose resolved operator parameters carry no explicit name, the
bound operator names are pairwise distinct, each defaulting to
`{type}_{index}` with the index of its configuration entry. -/
theorem C9_default_names_distinct {TU : Type}
    (registry : List (String × OperatorClass TU)) (config : Dict)
    (process_type : ProcessType) (exit_step : Option Nat) (label : List String)
    (shared : Option (List (Nat × SharedRes))) (p : Pipeline TU)
    (pcfg : List Dict) (infos : List (OperatorClass TU × Dict × String × Nat))
    (hpt : ¬(process_type = ProcessType.POSTPROCESS))
    (hb : buildPipeline registry config process_type exit_step label shared =
      Except.ok p)
    (hpc : getOpListD config "preprocess" = Except.ok pcfg)
    (hgen : operator_info_gen registry process_type label exit_step true pcfg 0 =
      Except.ok infos)
    (hnoname : ∀ e ∈ infos, lookupV "name" e.2.1 = none) :
    (p.ops.map (fun op => op.name)).Nodup ∧
    ∀ op ∈ p.ops, op.name = op.opType ++ "_" ++ decRender op.index := by
  simp only [buildPipeline] at hb
  rw [hpc, exceptBindOk] at hb
  cases hao : add_op_list registry config process_type label pcfg exit_step shared
      [] (initStartState config) with
  | error e => rw [hao, exceptBindErr] at hb; exact absurd hb (by simp)
  | ok r =>
      obtain ⟨ops, bsf⟩ := r
      rw [hao, exceptBindOk, if_neg hpt] at hb
      simp only [Except.ok.injEq] at hb
      simp only [add_op_list] at hao
      rw [hgen, exceptBindOk] at hao
      obtain ⟨hmap, hmem⟩ := add_ops_spec config process_type shared infos []
        (initStartState config) ops bsf hao
      obtain ⟨hpair, _⟩ := operator_info_gen_indices registry process_type label
        exit_step true pcfg 0 infos hgen
      have hdef : ∀ op ∈ ops, op.name = op.opType ++ "_" ++ decRender op.index := by
        intro op hop
        rcases hmem op hop with hin | ⟨e, he, _hidx, _htype, hname⟩
        · simp at hin
        · exact hname (hnoname e he)
      have hidxpair : (ops.map (fun op => op.index)).Pairwise (· < ·) := by
        rw [hmap]
        simpa using hpair
      have hops : p.ops = ops := by rw [← hb]
      rw [hops]
      exact ⟨default_names_nodup ops hdef hidxpair, hdef⟩

/-- Witness for C9's amended claim: the two-operator demo configuration with no
explicit names yields the pairwise-distinct default names `t_0`, `t_1`. -/
theorem C9_default_names_distinct_witness :
    (demoP10.ops.map (fun op => op.name)).Nodup ∧
    ∀ op ∈ demoP10.ops, op.name = op.opType ++ "_" ++ decRender op.index :=
  C9_default_names_distinct demoRegistry demoConfig1 ProcessType.TRAINING none [] none
    demoP10 [[("op", Value.vStr "t")], [("op", Value.vStr "t")]]
    [(demoCls, [], "t", 0), (demoCls, [], "t", 1)]
    (by decide) rfl rfl rfl
    (by
      intro e he
      rcases List.mem_cons.mp he with h | h
      · subst h; rfl
      · rcases List.mem_cons.mp h with h' | h'
        · subst h'; rfl
        · exact absurd h' (by simp))

end NmtServing
